import Mathlib

/-!
# Verification of the Credit-Scoring data-cleaning pipeline

Shallow embedding of `src/pipe.py` (class `CreditDataPipeline`) and the
relevant boundary code of `src/app.py`, together with theorems settling the
specification claims.

Modelling conventions:
* A polars `DataFrame` is a list of named, dtype-tagged columns; a cell is
  `Option Val` (`none` = polars null).  `Float64` values are modelled as
  rationals (`ℚ`); all concrete values appearing in the development are
  exactly representable in binary floating point, so no rounding behaviour
  is lost on the inputs considered.
* `group_by(key).agg(...)` followed by `join(on=key, how="left")` is modelled
  in fused form: for every row, the joined statistic is computed from the
  rows sharing that row's (non-null) key; a null key joins to null, matching
  polars' default `join_nulls=False`.  The aggregation frame produced by
  `group_by` has one row per key, so the left join neither drops nor
  duplicates rows and preserves row order.
* `Series.unique()` (used by `fit` for auto-encode vocabularies) guarantees
  no order (its `maintain_order` flag is left at its default `False`), so
  `fit` is modelled parametrically in the enumeration: `fitWith u` takes any
  function `u` returning a duplicate-free enumeration of the values of its
  input (`isUniqueOf`), and vocabulary theorems quantify over every such
  `u`.  `fitWith uniqFS` (first-seen order) is one executable instance,
  used only to evaluate concrete tables.
* Strict casts and strictly-dropping column operations are modelled in
  `Except`, erroring exactly when polars raises.  The schema guard
  `schemaOK` checks up front that the columns the transform references by
  name exist, that column names are unique and that the names of the
  columns generated during the transform do not collide with input columns;
  polars surfaces the same configuration errors lazily (or by suffixing
  joined duplicates), which is outside the modelled scope.
-/

deriving instance DecidableEq for Except

namespace Credit

/-- A single (non-null) polars cell value: string, Float64 (as `ℚ`) or
integer (Int64/Int8). -/
inductive Val : Type where
  | vs (s : String)
  | vf (q : ℚ)
  | vi (n : ℤ)
deriving DecidableEq, Repr

/-- Column dtypes that the pipeline distinguishes (selection by dtype is used
by the text-normalisation and negative-scrub passes). -/
inductive Dtype : Type where
  | dstr
  | df64
  | di64
  | di8
deriving DecidableEq, Repr

/-- A named polars column: dtype tag plus the list of cells (`none` = null). -/
structure Col : Type where
  name : String
  dtype : Dtype
  cells : List (Option Val)
deriving DecidableEq, Repr

/-- A polars DataFrame: list of columns (all of equal height for well-formed
frames; the schema guard checks this). -/
abbrev DFrame : Type := List Col

/-- Boolean membership with propositional equality (easier to reason about
than `BEq`-based `List.contains`). -/
def memB (n : String) (l : List String) : Bool :=
  l.any (fun m => decide (m = n))

/-- Column names of a frame, in order. -/
def names (df : DFrame) : List String :=
  df.map (·.name)

/-- First column with the given name, if any. -/
def getCol? (df : DFrame) (n : String) : Option Col :=
  df.find? (fun c => decide (c.name = n))

/-- Cells of the column named `n` (empty if the column is absent). -/
def cellsOf (df : DFrame) (n : String) : List (Option Val) :=
  ((getCol? df n).map (·.cells)).getD []

/-- Dtype of the column named `n` (defaulting to string). -/
def dtypeOf (df : DFrame) (n : String) : Dtype :=
  ((getCol? df n).map (·.dtype)).getD Dtype.dstr

/-- Height of a frame (row count of its first column). -/
def height (df : DFrame) : ℕ :=
  match df with
  | [] => 0
  | c :: _ => c.cells.length

/-- Map a function over all columns (polars `with_columns` applied to a
selection, rewriting each selected column in place). -/
def mapCols (f : Col → Col) (df : DFrame) : DFrame :=
  df.map f

/-- Numeric view of a value (`Float64` and integer cells). -/
def toQ : Val → Option ℚ
  | Val.vf q => some q
  | Val.vi n => some (n : ℚ)
  | Val.vs _ => none

/-- String view of a value (empty for non-strings). -/
def strValOf : Val → String
  | Val.vs s => s
  | _ => ""

/-! ## Kernel-computable rational arithmetic

The standard `ℚ` operations are sealed against unfolding during elaboration,
which blocks `decide`-style evaluation of concrete pipelines.  The wrappers
below compute with `mkRat` (which evaluates) and are proved equal to the
standard operations in the lemma section, so theorem statements can use
ordinary arithmetic notation. -/

/-- Computable rational addition. -/
def qadd (a b : ℚ) : ℚ :=
  mkRat (a.num * b.den + b.num * a.den) (a.den * b.den)

/-- Computable rational subtraction. -/
def qsub (a b : ℚ) : ℚ :=
  mkRat (a.num * b.den - b.num * a.den) (a.den * b.den)

/-- Computable rational multiplication. -/
def qmul (a b : ℚ) : ℚ :=
  mkRat (a.num * b.num) (a.den * b.den)

/-- Computable rational negation. -/
def qneg (a : ℚ) : ℚ :=
  mkRat (-a.num) a.den

/-- Computable division of a rational by a natural number. -/
def qdivN (a : ℚ) (n : ℕ) : ℚ :=
  mkRat a.num (a.den * n)

/-- Computable `|a - b|`. -/
def qabsSub (a b : ℚ) : ℚ :=
  if qsub a b < 0 then qsub b a else qsub a b

/-! ## Sorting and robust statistics -/

/-- Insert into a sorted list of rationals. -/
def insertSorted (q : ℚ) : List ℚ → List ℚ
  | [] => [q]
  | x :: t => if q ≤ x then q :: x :: t else x :: insertSorted q t

/-- Insertion sort for rationals. -/
def sortQ (l : List ℚ) : List ℚ :=
  l.foldr insertSorted []

/-- polars `median`: middle element for odd length, mean of the two middle
elements for even length, null for an empty input. -/
def medianQ (l : List ℚ) : Option ℚ :=
  let s := sortQ l
  if s.length = 0 then none
  else if s.length % 2 = 1 then s[s.length / 2]?
  else
    match s[s.length / 2 - 1]?, s[s.length / 2]? with
    | some a, some b => some (qdivN (qadd a b) 2)
    | _, _ => none

/-- First-seen-order deduplication relative to an already-seen set. -/
def uniqFSAux {α : Type} [DecidableEq α] (seen : List α) : List α → List α
  | [] => []
  | v :: t => if v ∈ seen then uniqFSAux seen t else v :: uniqFSAux (v :: seen) t

/-- First-seen-order deduplication: the iteration order of a python dict
built by repeated insertion (which python does specify), and one admissible
enumeration for `Series.unique()` (which polars does not: see `isUniqueOf`
and `fitWith`). -/
def uniqFS {α : Type} [DecidableEq α] (l : List α) : List α :=
  uniqFSAux [] l

/-- Occurrence count of a value in a list. -/
def countV (l : List Val) (v : Val) : ℕ :=
  l.countP (fun w => decide (w = v))

/-- All modal values of a list, in first-seen order (`Series.mode()`,
modelled order-preserving like `unique()`). -/
def modesAll (l : List Val) : List Val :=
  (uniqFS l).filter (fun v => (uniqFS l).all (fun w => decide (countV l w ≤ countV l v)))

/-- polars `mode().first()` with the deterministic first-encountered
tie-break documented in the spec: the earliest value attaining the maximal
count. -/
def modeFirst (l : List Val) : Option Val :=
  (uniqFS l).foldl
    (fun best v =>
      match best with
      | none => some v
      | some b => if countV l v > countV l b then some v else best)
    none

/-! ## String helpers -/

/-- `str.strip_chars("_")`: remove leading and trailing underscores. -/
def stripUnd (s : String) : String :=
  String.mk (((s.toList.dropWhile (fun c => decide (c = '_'))).reverse.dropWhile
    (fun c => decide (c = '_'))).reverse)

/-- The empty-sentinel strings replaced by null after stripping
(`pipe.py` line 91). -/
def sentinels : List String := ["", "_", "!@9#%8"]

/-- Word character for the regex `\b` boundary (python `\w`, restricted to
ASCII, which covers every value in this domain). -/
def isWordChar (c : Char) : Bool :=
  c.isAlphanum || decide (c = '_')

/-- Does `w` occur in `s` at position `i` with `\b` boundaries on both sides?
Faithful to `\b{w}\b` for needles whose first and last characters are word
characters (true of every configured loan-type name). -/
def wordMatchAt (s w : List Char) (i : ℕ) : Bool :=
  decide ((s.drop i).take w.length = w)
  && (decide (i = 0) || !(isWordChar (s.getD (i - 1) ' ')))
  && (decide (i + w.length = s.length) || !(isWordChar (s.getD (i + w.length) ' ')))

/-- `str.contains(rf"\b{w}\b")`: whole-word substring test. -/
def wordContains (s w : List Char) : Bool :=
  (List.range (s.length + 1)).any (wordMatchAt s w)

/-! ## Decimal parsing (strict numeric cast and the history regex) -/

/-- Digit value of an ASCII digit character. -/
def digitVal (c : Char) : ℕ :=
  c.toNat - 48

/-- Greedy digit-run reader: consumes the maximal leading run of digits,
accumulating the decimal value; returns the value and the rest.  Equivalent
to the greedy regex `\d+` followed by a non-digit continuation. -/
def readDigits : List Char → ℕ → ℕ × List Char
  | [], acc => (acc, [])
  | c :: t, acc =>
      if c.isDigit then readDigits t (10 * acc + digitVal c) else (acc, c :: t)

/-- Reference decimal value of a digit string (most significant first),
via Mathlib's `Nat.ofDigits`. -/
def decVal (ds : List Char) : ℕ :=
  Nat.ofDigits 10 ((ds.map digitVal).reverse)

/-- Strip an expected literal off the front of a character list. -/
def stripLit : List Char → List Char → Option (List Char)
  | [], l => some l
  | _ :: _, [] => none
  | p :: ps, c :: cs => if decide (c = p) then stripLit ps cs else none

/-- Does the list start with a digit? -/
def headDigit : List Char → Bool
  | [] => false
  | c :: _ => c.isDigit

/-- `re.match(r"(?P<years>\d+) Years and (?P<months>\d+) Months", s)` with
the value `years * 12 + months`.  `re.match` anchors at the start only, so
trailing characters after `"Months"` are accepted; greedy `\d+` directly
followed by a literal space admits no other decomposition, so maximal-munch
digit reading is equivalent to the regex. -/
def parseHistoryChars (l : List Char) : Option ℤ :=
  if headDigit l then
    match stripLit " Years and ".toList (readDigits l 0).2 with
    | none => none
    | some r2 =>
      if headDigit r2 then
        match stripLit " Months".toList (readDigits r2 0).2 with
        | none => none
        | some _ => some (((readDigits l 0).1 * 12 + (readDigits r2 0).1 : ℕ) : ℤ)
      else none
  else none

/-- `CreditDataPipeline.history_to_months` (pipe.py lines 47-60): null in,
null out; otherwise the anchored regex parse above. -/
def history_to_months (h : Option String) : Option ℤ :=
  h.bind (fun s => parseHistoryChars s.toList)

/-- Decimal rational parser for the strict `str → Float64` cast: optional
sign, a digit run, optionally a point and a fractional digit run.  (polars
accepts further float syntax such as exponents; no value in this
development uses it.) -/
def parseDec (s : String) : Option ℚ :=
  let l := s.toList
  let signAndRest : Bool × List Char :=
    match l with
    | '-' :: t => (true, t)
    | _ => (false, l)
  match signAndRest with
  | (neg, l1) =>
    match l1 with
    | [] => none
    | c :: _ =>
      if c.isDigit then
        match readDigits l1 0 with
        | (ip, r) =>
          let mag : Option ℚ :=
            match r with
            | [] => some (ip : ℚ)
            | '.' :: fr =>
                if fr.length ≠ 0 ∧ fr.all Char.isDigit then
                  some (qadd (ip : ℚ) (mkRat (decVal fr : ℤ) (10 ^ fr.length)))
                else none
            | _ => none
          mag.map (fun q => if neg then qneg q else q)
      else none

/-- Value-level strict cast to `Float64`. -/
def castQ? : Val → Option ℚ
  | Val.vi n => some (n : ℚ)
  | Val.vf q => some q
  | Val.vs s => parseDec s

/-! ## The pipeline object -/

/-- Sanitised loan column suffix: `lt.replace('-', '').replace(' ', '_')`
(pipe.py line 23). -/
def sanitizeLoan (s : String) : String :=
  String.mk ((s.toList.filter (fun c => decide (c ≠ '-'))).map
    (fun c => if c = ' ' then '_' else c))

/-- Name of the multi-hot column generated for a loan type. -/
def loanColName (lt : String) : String :=
  "Loan_" ++ sanitizeLoan lt

/-- The mutable fields of a `CreditDataPipeline` instance.  `cat_mappings`
maps an auto-encode column name to its value→index vocabulary (an
association list in python-dict insertion order). -/
structure Pipeline : Type where
  numeric_cols : List String
  cat_cols : List String
  loan_types : List String
  cat_cols_auto_encode : List String
  global_medians : List (String × Option ℚ)
  global_modes : List (String × List Val)
  cat_mappings : List (String × List (Val × ℕ))
  loan_cols : List String
  cols_to_drop : List String
deriving DecidableEq, Repr

/-- `CreditDataPipeline.__init__` (pipe.py lines 7-44). -/
def mkPipeline (ncols ccols lts autos : List String) : Pipeline where
  numeric_cols := ncols
  cat_cols := ccols
  loan_types := lts
  cat_cols_auto_encode := autos
  global_medians := []
  global_modes := []
  cat_mappings := []
  loan_cols := lts.map loanColName
  cols_to_drop :=
    ["Customer_ID", "Name", "SSN", "Month", "Annual_Income", "Type_of_Loan",
     "median_age_per_occ"]

/-- `credit_mix_map` lookup with the dict-`get` default of null
(pipe.py lines 35-39 and 239-241). -/
def creditMixLookup : Val → Option Val
  | Val.vs "Bad" => some (Val.vi 0)
  | Val.vs "Standard" => some (Val.vi 1)
  | Val.vs "Good" => some (Val.vi 2)
  | _ => none

/-- `payment_map` lookup ("NM" treated as "No"; pipe.py lines 40-44 and
242-244). -/
def paymentLookup : Val → Option Val
  | Val.vs "No" => some (Val.vi 0)
  | Val.vs "NM" => some (Val.vi 0)
  | Val.vs "Yes" => some (Val.vi 1)
  | _ => none

/-- Auto-encode vocabulary lookup (python `mapping.get(x, None)`). -/
def assocLookup (v : Val) (m : List (Val × ℕ)) : Option ℕ :=
  (m.find? (fun e => decide (e.1 = v))).map (·.2)

/-- Pair each element with its index starting at `k` (python `enumerate`). -/
def enumFrom (k : ℕ) : List Val → List (Val × ℕ)
  | [] => []
  | v :: t => (v, k) :: enumFrom (k + 1) t

/-- Non-null cells of a column. -/
def nonNullsOf (df : DFrame) (n : String) : List Val :=
  (cellsOf df n).filterMap id

/-- Numeric non-null cells of a column (`drop_nulls()` on a numeric
series). -/
def numValsOf (df : DFrame) (n : String) : List ℚ :=
  (cellsOf df n).filterMap (fun cell => cell.bind toQ)

/-! ## Grouped statistics (fused `group_by` + left join, see header) -/

/-- Numeric values of `vals` on the rows whose key cell equals `some k`. -/
def groupValsQ (keys vals : List (Option Val)) (k : Val) : List ℚ :=
  (keys.zip vals).filterMap
    (fun kv =>
      match kv with
      | (some kk, some v) => if kk = k then toQ v else none
      | _ => none)

/-- Non-null values of `vals` on the rows whose key cell equals `some k`. -/
def groupValsV (keys vals : List (Option Val)) (k : Val) : List Val :=
  (keys.zip vals).filterMap
    (fun kv =>
      match kv with
      | (some kk, some v) => if kk = k then some v else none
      | _ => none)

/-- Per-row group medians: for each row, the median over the rows sharing
its key; a null key yields null (left joins do not match null keys). -/
def medCellsFor (keys vals : List (Option Val)) : List (Option Val) :=
  keys.map (fun kc => kc.bind (fun k => (medianQ (groupValsQ keys vals k)).map Val.vf))

/-- Per-row group modes (`drop_nulls().mode().first()` with first-seen
tie-break); a null key yields null. -/
def modeCellsFor (keys vals : List (Option Val)) : List (Option Val) :=
  keys.map (fun kc => kc.bind (fun k => modeFirst (groupValsV keys vals k)))

/-! ## Transform stages (pipe.py `transform`, lines 79-275) -/

/-- Per-column action of lines 83-87. -/
def stripF (c : Col) : Col :=
  if c.dtype = Dtype.dstr then
    { c with
      cells := c.cells.map (fun cell => cell.map (fun v =>
        match v with
        | Val.vs s => Val.vs (stripUnd s)
        | w => w)) }
  else c

/-- Lines 83-87: strip underscores from every string column. -/
def stripStage : DFrame → DFrame :=
  mapCols stripF

/-- Per-column action of lines 89-93. -/
def sentinelF (c : Col) : Col :=
  if c.dtype = Dtype.dstr then
    { c with
      cells := c.cells.map (fun cell => cell.bind (fun v =>
        match v with
        | Val.vs s => if memB s sentinels then none else some (Val.vs s)
        | w => some w)) }
  else c

/-- Lines 89-93: replace sentinel strings with null on every string
column. -/
def sentinelStage : DFrame → DFrame :=
  mapCols sentinelF

/-- The frame after TextNormalizer. -/
def normFrame (df : DFrame) : DFrame :=
  sentinelStage (stripStage df)

/-- The columns cast to `Float64` at lines 95-110. -/
def castCols : List String :=
  ["Age", "Annual_Income", "Num_of_Loan", "Num_of_Delayed_Payment",
   "Changed_Credit_Limit", "Outstanding_Debt", "Amount_invested_monthly",
   "Monthly_Balance"]

/-- Can every cell of the named column be strictly cast? -/
def castableCol (df : DFrame) (n : String) : Bool :=
  (cellsOf df n).all (fun cell =>
    match cell with
    | none => true
    | some v => (castQ? v).isSome)

/-- Is every cell of `Credit_History_Age` a string or null (a non-string
argument makes `re.match` raise a `TypeError`)? -/
def historyColOK (df : DFrame) : Bool :=
  (cellsOf df "Credit_History_Age").all (fun cell =>
    match cell with
    | none => true
    | some (Val.vs _) => true
    | some _ => false)

/-- Per-column action of lines 95-110. -/
def coerceF (c : Col) : Col :=
  if memB c.name castCols then
    { c with
      dtype := Dtype.df64
      cells := c.cells.map (fun cell => (cell.bind castQ?).map Val.vf) }
  else if c.name = "Credit_History_Age" then
    { c with
      dtype := Dtype.df64
      cells := c.cells.map (fun cell => cell.bind (fun v =>
        match v with
        | Val.vs s => (history_to_months (some s)).map (fun z => Val.vf (z : ℚ))
        | _ => none)) }
  else c

/-- Lines 95-110: strict casts of the fixed numeric columns plus the
credit-history parse; polars raises on an unparsable non-null value. -/
def coerceStage (df : DFrame) : Except String DFrame :=
  if (castCols.all (castableCol df)) && historyColOK df then
    Except.ok (mapCols coerceF df)
  else Except.error "cast failed"

/-- Lines 112-119: age plausibility — ages outside [18, 100] become null
(a null comparison is falsy, so nulls pass through). -/
def agePlausF (c : Col) : Col :=
  if c.name = "Age" then
    { c with
      cells := c.cells.map (fun cell =>
        match cell.bind toQ with
        | some q => if q < 18 ∨ q > 100 then none else cell
        | none => cell) }
  else c

/-- Lines 112-119 as a frame pass. -/
def agePlausStage : DFrame → DFrame :=
  mapCols agePlausF

/-- Lines 121-131: negative values of every Int64/Float64 column become
null (`map_elements` skips nulls). -/
def negScrubF (c : Col) : Col :=
  if c.dtype = Dtype.di64 ∨ c.dtype = Dtype.df64 then
    { c with
      cells := c.cells.map (fun cell =>
        match cell.bind toQ with
        | some q => if q < 0 then none else cell
        | none => cell) }
  else c

/-- Lines 121-131 as a frame pass. -/
def negScrubStage : DFrame → DFrame :=
  mapCols negScrubF

/-- The pre-outlier-filter frame (TypeCoercer output), given the cast
result. -/
def scrubFrame (d2 : DFrame) : DFrame :=
  negScrubStage (agePlausStage d2)

/-- Lines 133-138: per-customer medians of each declared numeric column,
joined back as `{col}_median`. -/
def medianJoinStage (ncols : List String) (df : DFrame) : DFrame :=
  df ++ ncols.map (fun c =>
    ⟨c ++ "_median", Dtype.df64, medCellsFor (cellsOf df "Customer_ID") (cellsOf df c)⟩)

/-- Lines 140-145: absolute deviation from the group median, per numeric
column. -/
def absDevStage (ncols : List String) (df : DFrame) : DFrame :=
  df ++ ncols.map (fun c =>
    ⟨c ++ "_abs_dev", Dtype.df64,
      List.zipWith
        (fun a b =>
          match a.bind toQ, b.bind toQ with
          | some x, some y => some (Val.vf (qabsSub x y))
          | _, _ => none)
        (cellsOf df c) (cellsOf df (c ++ "_median"))⟩)

/-- Lines 147-155: per-customer MAD (median of the absolute deviations),
joined back as `{col}_mad`. -/
def madJoinStage (ncols : List String) (df : DFrame) : DFrame :=
  df ++ ncols.map (fun c =>
    ⟨c ++ "_mad", Dtype.df64,
      medCellsFor (cellsOf df "Customer_ID") (cellsOf df (c ++ "_abs_dev"))⟩)

/-- The statistics frame feeding the outlier filter. -/
def statFrame (ncols : List String) (d4 : DFrame) : DFrame :=
  madJoinStage ncols (absDevStage ncols (medianJoinStage ncols d4))

/-- One cell of the outlier filter (lines 157-176): a value strictly outside
`median ± 3 · MAD` becomes null; if the value, the median or the MAD is
null (or non-numeric) the when-condition is null/false and the cell is
retained. -/
def bandFilter (v m d : Option Val) : Option Val :=
  match v.bind toQ, m.bind toQ, d.bind toQ with
  | some q, some mq, some dq =>
      if q < qsub mq (qmul 3 dq) ∨ q > qadd mq (qmul 3 dq) then none else v
  | _, _, _ => v

/-- Three-way cell zip. -/
def zipCells3 (f : Option Val → Option Val → Option Val → Option Val) :
    List (Option Val) → List (Option Val) → List (Option Val) → List (Option Val)
  | a :: as, b :: bs, c :: cs => f a b c :: zipCells3 f as bs cs
  | _, _, _ => []

/-- Lines 157-176: RobustOutlierFilter over every declared numeric
column. -/
def outlierF (ncols : List String) (df : DFrame) (c : Col) : Col :=
  if memB c.name ncols then
    { c with
      cells := zipCells3 bandFilter c.cells
        (cellsOf df (c.name ++ "_median")) (cellsOf df (c.name ++ "_mad")) }
  else c

/-- Lines 157-176 as a frame pass (each column reads the joined statistic
columns of the same frame). -/
def outlierStage (ncols : List String) (df : DFrame) : DFrame :=
  mapCols (outlierF ncols df) df

/-- The frame after RobustOutlierFilter. -/
def filterFrame (ncols : List String) (d4 : DFrame) : DFrame :=
  outlierStage ncols (statFrame ncols d4)

/-- Lines 178-186: per-customer modes of each categorical column, joined
back as `{col}_mode`. -/
def modeJoinStage (ccols : List String) (df : DFrame) : DFrame :=
  df ++ ccols.map (fun c =>
    ⟨c ++ "_mode", dtypeOf df c,
      modeCellsFor (cellsOf df "Customer_ID") (cellsOf df c)⟩)

/-- `pl.coalesce([col, fallback])` on one cell. -/
def coalesceCell (a b : Option Val) : Option Val :=
  match a with
  | some v => some v
  | none => b

/-- Lines 188-191: numeric nulls filled with the joined group median. -/
def imputeNumF (ncols : List String) (df : DFrame) (c : Col) : Col :=
  if memB c.name ncols then
    { c with cells := List.zipWith coalesceCell c.cells (cellsOf df (c.name ++ "_median")) }
  else c

/-- Lines 188-191 as a frame pass. -/
def imputeNumStage (ncols : List String) (df : DFrame) : DFrame :=
  mapCols (imputeNumF ncols df) df

/-- Lines 193-198: categorical nulls filled with the joined group mode. -/
def imputeCatF (ccols : List String) (df : DFrame) (c : Col) : Col :=
  if memB c.name ccols then
    { c with cells := List.zipWith coalesceCell c.cells (cellsOf df (c.name ++ "_mode")) }
  else c

/-- Lines 193-198 as a frame pass. -/
def imputeCatStage (ccols : List String) (df : DFrame) : DFrame :=
  mapCols (imputeCatF ccols df) df

/-- Lines 200-206: median age per occupation, joined back on
`Occupation`. -/
def occJoinStage (df : DFrame) : DFrame :=
  df ++ [⟨"median_age_per_occ", Dtype.df64,
    medCellsFor (cellsOf df "Occupation") (cellsOf df "Age")⟩]

/-- Cast a cell to `Float64` (the explicit `.cast(pl.Float64)` on the
imputed age, whose values are already numeric at this point). -/
def castF64Cell (cell : Option Val) : Option Val :=
  cell.bind (fun v => (toQ v).map Val.vf)

/-- Lines 208-220: fill remaining age nulls from the occupation median and
recompute a null monthly salary as annual income divided by twelve. -/
def occImputeF (df : DFrame) (c : Col) : Col :=
  if c.name = "Age" then
    { c with
      dtype := Dtype.df64
      cells := List.zipWith (fun a m => castF64Cell (coalesceCell a m))
        c.cells (cellsOf df "median_age_per_occ") }
  else if c.name = "Monthly_Inhand_Salary" then
    { c with
      cells := List.zipWith
        (fun s inc =>
          match s with
          | some v => some v
          | none => (inc.bind toQ).map (fun q => Val.vf (q / 12)))
        c.cells (cellsOf df "Annual_Income") }
  else c

/-- Lines 208-220 as a frame pass. -/
def occImputeStage (df : DFrame) : DFrame :=
  mapCols (occImputeF df) df

/-- The frame after HierarchicalImputer, given the TypeCoercer output. -/
def imputeFrame (ncols ccols : List String) (d2 : DFrame) : DFrame :=
  occImputeStage (occJoinStage (imputeCatStage ccols
    (imputeNumStage ncols (modeJoinStage ccols (filterFrame ncols (scrubFrame d2))))))

/-- Per-column action of line 223. -/
def loanFillF (c : Col) : Col :=
  if c.name = "Type_of_Loan" then
    { c with cells := c.cells.map (fun cell => some (cell.getD (Val.vs ""))) }
  else c

/-- Line 223: `Type_of_Loan` nulls filled with the empty string.  polars
raises if the column is missing or not a string column. -/
def loanFillStage (df : DFrame) : Except String DFrame :=
  match getCol? df "Type_of_Loan" with
  | none => Except.error "Type_of_Loan missing"
  | some tc =>
    if tc.dtype = Dtype.dstr then Except.ok (mapCols loanFillF df)
    else Except.error "fill_null dtype mismatch"

/-- Lines 225-234: multi-hot loan columns, one `Int8` 0/1 column per
configured loan type (`contains` keeps null for a null input, but the fill
above removed all nulls). -/
def loanHotStage (lts : List String) (df : DFrame) : DFrame :=
  df ++ lts.map (fun lt =>
    ⟨loanColName lt, Dtype.di8,
      (cellsOf df "Type_of_Loan").map (fun cell => cell.map (fun v =>
        Val.vi (if wordContains (strValOf v).toList lt.toList then 1 else 0)))⟩)

/-- Lines 236-246: fixed ordinal encodings of `Credit_Mix` and
`Payment_of_Min_Amount` (unknown values map to null, nulls skipped). -/
def fixedMapF (c : Col) : Col :=
  if c.name = "Credit_Mix" then
    { c with dtype := Dtype.di64, cells := c.cells.map (fun cell => cell.bind creditMixLookup) }
  else if c.name = "Payment_of_Min_Amount" then
    { c with dtype := Dtype.di8, cells := c.cells.map (fun cell => cell.bind paymentLookup) }
  else c

/-- Lines 236-246 as a frame pass. -/
def fixedMapStage : DFrame → DFrame :=
  mapCols fixedMapF

/-- Vocabulary of the auto-encode column named `n`, if one was fitted. -/
def mapLookup (maps : List (String × List (Val × ℕ))) (n : String) :
    Option (List (Val × ℕ)) :=
  (maps.find? (fun e => decide (e.1 = n))).map (·.2)

/-- Lines 257-263: apply the fitted auto-encode vocabularies; values
missing from a vocabulary map to null. -/
def autoEncF (maps : List (String × List (Val × ℕ))) (c : Col) : Col :=
  match mapLookup maps c.name with
  | some m =>
    { c with
      dtype := Dtype.di64
      cells := c.cells.map (fun cell => cell.bind (fun v =>
        (assocLookup v m).map (fun i => Val.vi (i : ℤ)))) }
  | none => c

/-- Lines 257-263 as a frame pass. -/
def autoEncStage (maps : List (String × List (Val × ℕ))) : DFrame → DFrame :=
  mapCols (autoEncF maps)

/-- The frame after all encoders, given the loan-fill output. -/
def encodeFrame (lts : List String) (maps : List (String × List (Val × ℕ)))
    (d14 : DFrame) : DFrame :=
  autoEncStage maps (fixedMapStage (loanHotStage lts d14))

/-- The statistic column names appended to `cols_to_drop` on every call
(pipe.py lines 265-271), in python append order. -/
def genStatNames (p : Pipeline) : List String :=
  (p.numeric_cols.map (fun c => [c ++ "_median", c ++ "_mad", c ++ "_abs_dev"])).flatten
    ++ p.cat_cols.map (· ++ "_mode")

/-- Remove every column whose name is in the list. -/
def dropAll (ns : List String) (df : DFrame) : DFrame :=
  df.filter (fun c => !(memB c.name ns))

/-- polars strict `drop`: every listed name must name an existing column
(duplicates in the list are harmless). -/
def dropStrict (ns : List String) (df : DFrame) : Except String DFrame :=
  if ns.all (fun n => memB n (names df)) then Except.ok (dropAll ns df)
  else Except.error "drop: missing column"

/-! ## Schema guard -/

/-- The input columns `transform` references by name: the fixed columns of
lines 95-246 and 26-34 plus the configured column lists. -/
def requiredNames (p : Pipeline) : List String :=
  ["Age", "Annual_Income", "Num_of_Loan", "Num_of_Delayed_Payment",
   "Changed_Credit_Limit", "Outstanding_Debt", "Amount_invested_monthly",
   "Monthly_Balance", "Credit_History_Age", "Customer_ID", "Occupation",
   "Monthly_Inhand_Salary", "Type_of_Loan", "Credit_Mix",
   "Payment_of_Min_Amount", "Name", "SSN", "Month"]
  ++ p.numeric_cols ++ p.cat_cols ++ p.cat_cols_auto_encode
  ++ p.cat_mappings.map (·.1)

/-- All column names generated during `transform`, grouped by kind. -/
def guardNames (p : Pipeline) : List String :=
  p.numeric_cols.map (· ++ "_median") ++ p.numeric_cols.map (· ++ "_mad")
  ++ p.numeric_cols.map (· ++ "_abs_dev") ++ p.cat_cols.map (· ++ "_mode")
  ++ ["median_age_per_occ"] ++ p.loan_types.map loanColName

/-- No duplicates (Boolean). -/
def nodupB : List String → Bool
  | [] => true
  | x :: t => !(memB x t) && nodupB t

/-- Configuration/schema guard: the referenced columns exist, all column
names (input and generated) are pairwise distinct and the frame is
rectangular.  polars raises the corresponding errors lazily (missing
column, duplicate output name) during the transform. -/
def schemaOK (p : Pipeline) (df : DFrame) : Bool :=
  (requiredNames p).all (fun n => memB n (names df))
  && nodupB (names df ++ guardNames p)
  && df.all (fun c => decide (c.cells.length = height df))

/-! ## `fit`, `transform`, `fit_transform` -/

/-- The contract of polars `Series.unique()` with its default
`maintain_order=False`: some duplicate-free enumeration of the values
occurring in the input, in an order the library does not specify. -/
def isUniqueOf (u l : List Val) : Prop :=
  u.Nodup ∧ ∀ v, v ∈ u ↔ v ∈ l

/-- `CreditDataPipeline.fit` (pipe.py lines 62-77) relative to an
enumeration function `u` standing for `Series.unique()`: it stores the
global fallback statistics (unused by `transform`, see the source comment
at lines 248-255) and builds one auto-encode vocabulary per configured
column by enumerating `u` of the column's non-null values.  polars leaves
the order of `unique()` unspecified, so the source determines `fit` only
up to the choice of `u`; vocabulary theorems therefore quantify over every
`u` satisfying `isUniqueOf`.  The outer `uniqFS` deduplicates the
*configured column names* — python dict insertion order, which is
specified: the first assignment fixes the key position. -/
def fitWith (u : List Val → List Val) (p : Pipeline) (df : DFrame) :
    Except String Pipeline :=
  if (p.numeric_cols ++ p.cat_cols ++ p.cat_cols_auto_encode).all
      (fun n => memB n (names df)) then
    Except.ok
      { p with
        global_medians := p.numeric_cols.map (fun c => (c, medianQ (numValsOf df c)))
        global_modes := p.cat_cols.map (fun c => (c, modesAll (nonNullsOf df c)))
        cat_mappings := (uniqFS p.cat_cols_auto_encode).map (fun c =>
          (c, enumFrom 0 (u (nonNullsOf df c)))) }
  else Except.error "fit: missing column"

/-- An executable instance of `fitWith` (the first-seen enumeration),
used only to evaluate concrete tables; no theorem depends on this
particular order being the one polars produces. -/
def fit (p : Pipeline) (df : DFrame) : Except String Pipeline :=
  fitWith uniqFS p df

/-- `CreditDataPipeline.transform` (pipe.py lines 79-275).  Returns the
output frame together with the pipeline object after the call, because the
python method mutates `self.cols_to_drop` (lines 265-271). -/
def transform (p : Pipeline) (df : DFrame) : Except String (DFrame × Pipeline) :=
  if schemaOK p df then
    match coerceStage (normFrame df) with
    | Except.error e => Except.error e
    | Except.ok d2 =>
      match loanFillStage (imputeFrame p.numeric_cols p.cat_cols d2) with
      | Except.error e => Except.error e
      | Except.ok d14 =>
        match dropStrict (p.cols_to_drop ++ genStatNames p)
            (encodeFrame p.loan_types p.cat_mappings d14) with
        | Except.error e => Except.error e
        | Except.ok out =>
          Except.ok (out, { p with cols_to_drop := p.cols_to_drop ++ genStatNames p })
  else Except.error "transform: missing required column"

/-- `fit_transform` (pipe.py lines 277-278). -/
def fit_transform (p : Pipeline) (df : DFrame) : Except String (DFrame × Pipeline) :=
  (fit p df).bind (fun pf => transform pf df)

/-! ## The UI boundary (app.py lines 25-28) -/

/-- The table `app.py` hands to `pipeline.transform`.  The source reads

| if "Credit_Score" in input_df.columns:
|     input_df.drop("Credit_Score")

`DataFrame.drop` returns a new frame; the result is never assigned, so the
frame passed on line 28 is `input_df` itself, label column included. -/
def appTableForTransform (input_df : DFrame) : DFrame :=
  if memB "Credit_Score" (names input_df) then
    let _discarded := dropAll ["Credit_Score"] input_df
    input_df
  else input_df

/-! ## Concrete tables and pipeline configurations used by the claims -/

/-- String column literal. -/
def scol (n : String) (cs : List (Option String)) : Col :=
  ⟨n, Dtype.dstr, cs.map (Option.map Val.vs)⟩

/-- Float64 column literal. -/
def fcol (n : String) (cs : List (Option ℚ)) : Col :=
  ⟨n, Dtype.df64, cs.map (Option.map Val.vf)⟩

/-- Int64 column literal. -/
def icol (n : String) (cs : List (Option ℤ)) : Col :=
  ⟨n, Dtype.di64, cs.map (Option.map Val.vi)⟩

/-- A full-schema table: one value list per required column, `k` rows. -/
def baseTable (cid name ssn month occ tol cmix pmin chist : List (Option String))
    (age inc nloan ndel : List (Option ℤ))
    (sal climit debt ainv mbal : List (Option ℚ)) : DFrame :=
  [scol "Customer_ID" cid, scol "Name" name, scol "SSN" ssn, scol "Month" month,
   icol "Age" age, icol "Annual_Income" inc, fcol "Monthly_Inhand_Salary" sal,
   icol "Num_of_Loan" nloan, icol "Num_of_Delayed_Payment" ndel,
   fcol "Changed_Credit_Limit" climit, fcol "Outstanding_Debt" debt,
   fcol "Amount_invested_monthly" ainv, fcol "Monthly_Balance" mbal,
   scol "Credit_History_Age" chist, scol "Occupation" occ,
   scol "Type_of_Loan" tol, scol "Credit_Mix" cmix,
   scol "Payment_of_Min_Amount" pmin]

/-- C6 scenario: one customer, ages 150 and 25. -/
def tC6 : DFrame :=
  baseTable
    [some "C1", some "C1"] [some "A", some "A"] [some "111", some "111"]
    [some "January", some "February"] [some "Doctor", some "Doctor"]
    [some "Auto Loan", some "Auto Loan"] [some "Good", some "Good"]
    [some "Yes", some "Yes"]
    [some "2 Years and 0 Months", some "2 Years and 0 Months"]
    [some 150, some 25] [some 12000, some 12000] [some 1, some 1] [some 0, some 0]
    [some 1000, some 1000] [some 1, some 1] [some 10, some 10]
    [some 5, some 5] [some 100, some 100]

/-- Pipeline for the C6 scenario. -/
def pC6 : Pipeline := mkPipeline ["Age"] ["Occupation"] ["Auto Loan"] []

/-- C1/C3 scenario: one customer, five rows, `Num_of_Loan` values
1, 2, 3, 1000, null.  Pre-filter median 5/2, MAD 1, so 1000 is filtered;
the surviving values 1, 2, 3 have median 2. -/
def tC1 : DFrame :=
  baseTable
    [some "C1", some "C1", some "C1", some "C1", some "C1"]
    [some "A", some "A", some "A", some "A", some "A"]
    [some "1", some "1", some "1", some "1", some "1"]
    [some "Jan", some "Feb", some "Mar", some "Apr", some "May"]
    [some "Doctor", some "Doctor", some "Doctor", some "Doctor", some "Doctor"]
    [some "Auto Loan", some "Auto Loan", some "Auto Loan", some "Auto Loan", some "Auto Loan"]
    [some "Good", some "Good", some "Good", some "Good", some "Good"]
    [some "Yes", some "Yes", some "Yes", some "Yes", some "Yes"]
    [some "1 Years and 0 Months", some "1 Years and 0 Months",
     some "1 Years and 0 Months", some "1 Years and 0 Months",
     some "1 Years and 0 Months"]
    [some 30, some 30, some 30, some 30, some 30]
    [some 12000, some 12000, some 12000, some 12000, some 12000]
    [some 1, some 2, some 3, some 1000, none]
    [some 0, some 0, some 0, some 0, some 0]
    [some 1000, some 1000, some 1000, some 1000, some 1000]
    [some 1, some 1, some 1, some 1, some 1]
    [some 10, some 10, some 10, some 10, some 10]
    [some 5, some 5, some 5, some 5, some 5]
    [some 100, some 100, some 100, some 100, some 100]

/-- Pipeline for the C1 scenario. -/
def pC1 : Pipeline := mkPipeline ["Num_of_Loan"] ["Occupation"] ["Auto Loan"] []

/-- C3 zero-MAD scenario: one customer, `Num_of_Loan` values 5, 5, 8:
group median 5, MAD 0, so 8 lies outside the degenerate band. -/
def tC3 : DFrame :=
  baseTable
    [some "C1", some "C1", some "C1"]
    [some "A", some "A", some "A"] [some "1", some "1", some "1"]
    [some "Jan", some "Feb", some "Mar"]
    [some "Doctor", some "Doctor", some "Doctor"]
    [some "Auto Loan", some "Auto Loan", some "Auto Loan"]
    [some "Good", some "Good", some "Good"] [some "Yes", some "Yes", some "Yes"]
    [some "1 Years and 0 Months", some "1 Years and 0 Months",
     some "1 Years and 0 Months"]
    [some 30, some 30, some 30]
    [some 12000, some 12000, some 12000]
    [some 5, some 5, some 8] [some 0, some 0, some 0]
    [some 1000, some 1000, some 1000] [some 1, some 1, some 1]
    [some 10, some 10, some 10] [some 5, some 5, some 5]
    [some 100, some 100, some 100]

/-- C4 clean table: no nulls, no negatives, every group value equal to its
group median (so nothing is filtered or imputed). -/
def tC4 : DFrame :=
  baseTable
    [some "C1", some "C1"] [some "A", some "A"] [some "111", some "111"]
    [some "January", some "February"] [some "Doctor", some "Doctor"]
    [some "Auto Loan", some "Auto Loan"] [some "Good", some "Good"]
    [some "Yes", some "Yes"]
    [some "2 Years and 0 Months", some "2 Years and 0 Months"]
    [some 25, some 25] [some 12000, some 12000] [some 1, some 1] [some 0, some 0]
    [some 1000, some 1000] [some 1, some 1] [some 10, some 10]
    [some 5, some 5] [some 100, some 100]

/-- Auto-encode pipeline: `Occupation` is both categorical and
auto-encoded. -/
def pC5 : Pipeline := mkPipeline ["Age"] ["Occupation"] ["Auto Loan"] ["Occupation"]

/-- C5 training table: distinct non-null occupations Doctor, Lawyer in
first-seen order (with a null and a repeat in between). -/
def tC5fit : DFrame :=
  baseTable
    [some "C1", some "C1", some "C2", some "C2"]
    [some "A", some "A", some "B", some "B"]
    [some "1", some "1", some "2", some "2"]
    [some "Jan", some "Feb", some "Jan", some "Feb"]
    [some "Doctor", some "Lawyer", none, some "Doctor"]
    [some "Auto Loan", some "Auto Loan", some "Auto Loan", some "Auto Loan"]
    [some "Good", some "Good", some "Good", some "Good"]
    [some "Yes", some "Yes", some "Yes", some "Yes"]
    [some "1 Years and 0 Months", some "1 Years and 0 Months",
     some "1 Years and 0 Months", some "1 Years and 0 Months"]
    [some 30, some 30, some 40, some 40]
    [some 12000, some 12000, some 12000, some 12000]
    [some 1, some 1, some 1, some 1] [some 0, some 0, some 0, some 0]
    [some 1000, some 1000, some 1000, some 1000]
    [some 1, some 1, some 1, some 1] [some 10, some 10, some 10, some 10]
    [some 5, some 5, some 5, some 5]
    [some 100, some 100, some 100, some 100]

/-- C5 transform table: `Teacher` was unseen at fit time. -/
def tC5 : DFrame :=
  baseTable
    [some "C1", some "C2"] [some "A", some "B"] [some "1", some "2"]
    [some "Jan", some "Jan"] [some "Doctor", some "Teacher"]
    [some "Auto Loan", some "Auto Loan"] [some "Good", some "Good"]
    [some "Yes", some "Yes"]
    [some "1 Years and 0 Months", some "1 Years and 0 Months"]
    [some 30, some 40] [some 12000, some 12000] [some 1, some 1]
    [some 0, some 0] [some 1000, some 1000] [some 1, some 1]
    [some 10, some 10] [some 5, some 5] [some 100, some 100]

/-- C8 pipeline with the three configured loan types of the claim. -/
def pC8 : Pipeline :=
  mkPipeline ["Age"] ["Occupation"] ["Auto Loan", "Credit-Builder Loan", "Personal Loan"] []

/-- C8 table: one record holding an auto loan and a credit-builder loan. -/
def tC8 : DFrame :=
  baseTable
    [some "C1"] [some "A"] [some "111"] [some "January"] [some "Doctor"]
    [some "Auto Loan, and Credit-Builder Loan"] [some "Good"] [some "Yes"]
    [some "2 Years and 0 Months"]
    [some 25] [some 12000] [some 2] [some 0]
    [some 1000] [some 1] [some 10] [some 5] [some 100]

/-- C10 pipeline. -/
def pC10 : Pipeline := mkPipeline ["Num_of_Loan"] ["Occupation"] ["Auto Loan"] []

/-- C10 table: the two customer identifiers normalise to null; the first
record's `Num_of_Loan` is null, the second's is 6. -/
def tC10 : DFrame :=
  baseTable
    [some "_", some "!@9#%8"] [some "A", some "B"] [some "111", some "222"]
    [some "January", some "January"] [some "Doctor", some "Doctor"]
    [some "Auto Loan", some "Auto Loan"] [some "Good", some "Good"]
    [some "Yes", some "Yes"]
    [some "2 Years and 0 Months", some "2 Years and 0 Months"]
    [some 30, some 40] [some 12000, some 12000] [none, some 6] [some 0, some 0]
    [some 1000, some 1000] [some 1, some 1] [some 10, some 10]
    [some 5, some 5] [some 100, some 100]

/-- C9 uploaded table: carries the `Credit_Score` label column. -/
def tC9 : DFrame :=
  [scol "ID" [some "1"], scol "Credit_Score" [some "Good"]]

/-- First component of a successful transform (the output frame). -/
def outOf (r : Except String (DFrame × Pipeline)) : DFrame :=
  (r.toOption.map (·.1)).getD []

/-- Second component of a successful transform (the pipeline after the
call). -/
def pipeOf (r : Except String (DFrame × Pipeline)) : Option Pipeline :=
  r.toOption.map (·.2)

/-- Did the call succeed? -/
def exOk (r : Except String (DFrame × Pipeline)) : Bool :=
  match r with
  | Except.ok _ => true
  | Except.error _ => false

/-- `transform` applied twice (feeding the first output and the mutated
pipeline back in). -/
def doubleTransform (p : Pipeline) (df : DFrame) : Except String (DFrame × Pipeline) :=
  (transform p df).bind (fun r => transform r.2 r.1)

/-! ## Basic lemmas about the frame model -/

theorem memB_iff {n : String} {l : List String} : memB n l = true ↔ n ∈ l := by
  simp [memB]

theorem memB_eq_false {n : String} {l : List String} (h : n ∉ l) : memB n l = false := by
  cases hm : memB n l with
  | false => rfl
  | true => exact absurd (memB_iff.mp hm) h

theorem memB_append {n : String} {a b : List String} :
    memB n (a ++ b) = (memB n a || memB n b) := by
  simp [memB, List.any_append]

theorem getCol?_mapCols (f : Col → Col) (hf : ∀ c, (f c).name = c.name)
    (df : DFrame) (n : String) :
    getCol? (mapCols f df) n = (getCol? df n).map f := by
  induction df with
  | nil => rfl
  | cons c t ih =>
    simp only [mapCols, List.map_cons, getCol?, List.find?_cons] at *
    rw [hf c]
    cases h : decide (c.name = n) <;> simp_all

theorem getCol?_name {df : DFrame} {n : String} {c : Col}
    (h : getCol? df n = some c) : c.name = n := by
  have := List.find?_some h
  simpa using this

theorem getCol?_isSome_iff {df : DFrame} {n : String} :
    (getCol? df n).isSome = true ↔ n ∈ names df := by
  induction df with
  | nil => simp [getCol?, names]
  | cons c t ih =>
    by_cases h : c.name = n
    · simp [getCol?, List.find?_cons_of_pos, h, names]
    · rw [getCol?, List.find?_cons_of_neg _ (by simpa using h)]
      simp only [names, List.map_cons, List.mem_cons]
      rw [show (List.find? (fun c => decide (c.name = n)) t) = getCol? t n from rfl, ih]
      constructor
      · exact Or.inr
      · intro hor
        rcases hor with he | hm
        · exact absurd he.symm h
        · exact hm

theorem getCol?_eq_none_iff {df : DFrame} {n : String} :
    getCol? df n = none ↔ n ∉ names df := by
  rw [← getCol?_isSome_iff]
  cases h : getCol? df n <;> simp [h]

theorem getCol?_append_left {df e : DFrame} {n : String}
    (h : (getCol? df n).isSome = true) :
    getCol? (df ++ e) n = getCol? df n := by
  induction df with
  | nil => simp [getCol?] at h
  | cons c t ih =>
    by_cases hc : c.name = n
    · rw [getCol?, List.cons_append, List.find?_cons_of_pos _ (by simpa using hc),
        getCol?, List.find?_cons_of_pos _ (by simpa using hc)]
    · rw [getCol?, List.cons_append, List.find?_cons_of_neg _ (by simpa using hc),
        getCol?, List.find?_cons_of_neg _ (by simpa using hc)]
      rw [getCol?, List.find?_cons_of_neg _ (by simpa using hc)] at h
      exact ih h

theorem getCol?_append_right {df e : DFrame} {n : String}
    (h : getCol? df n = none) :
    getCol? (df ++ e) n = getCol? e n := by
  induction df with
  | nil => rfl
  | cons c t ih =>
    by_cases hc : c.name = n
    · rw [getCol?, List.find?_cons_of_pos _ (by simpa using hc)] at h
      exact absurd h (by simp)
    · rw [getCol?, List.find?_cons_of_neg _ (by simpa using hc)] at h
      rw [getCol?, List.cons_append, List.find?_cons_of_neg _ (by simpa using hc)]
      exact ih h

theorem cellsOf_eq_of_getCol? {df : DFrame} {n : String} {c : Col}
    (h : getCol? df n = some c) : cellsOf df n = c.cells := by
  simp [cellsOf, h]

theorem cellsOf_mapCols_fix (f : Col → Col) (hf : ∀ c, (f c).name = c.name)
    {df : DFrame} {n : String} (hfix : ∀ c, c.name = n → f c = c) :
    cellsOf (mapCols f df) n = cellsOf df n := by
  rw [cellsOf, getCol?_mapCols f hf]
  cases h : getCol? df n with
  | none => simp [cellsOf, h]
  | some c => simp [cellsOf, h, hfix c (getCol?_name h)]

theorem cellsOf_mapCols_some (f : Col → Col) (hf : ∀ c, (f c).name = c.name)
    {df : DFrame} {n : String} {c : Col} (h : getCol? df n = some c) :
    cellsOf (mapCols f df) n = (f c).cells := by
  simp [cellsOf, getCol?_mapCols f hf, h]

theorem cellsOf_append_left {df e : DFrame} {n : String} (h : n ∈ names df) :
    cellsOf (df ++ e) n = cellsOf df n := by
  rw [cellsOf, getCol?_append_left (getCol?_isSome_iff.mpr h), cellsOf]

theorem cellsOf_append_right {df e : DFrame} {n : String} (h : n ∉ names df) :
    cellsOf (df ++ e) n = cellsOf e n := by
  rw [cellsOf, getCol?_append_right (getCol?_eq_none_iff.mpr h), cellsOf]

theorem names_mapCols (f : Col → Col) (hf : ∀ c, (f c).name = c.name) (df : DFrame) :
    names (mapCols f df) = names df := by
  simp only [names, mapCols, List.map_map]
  exact List.map_congr_left (fun c _ => hf c)

theorem names_append (df e : DFrame) : names (df ++ e) = names df ++ names e := by
  simp [names]

theorem nodupB_sub_right {a b : List String} (h : nodupB (a ++ b) = true) :
    nodupB b = true := by
  induction a with
  | nil => exact h
  | cons x t ih =>
    simp only [List.cons_append, nodupB, Bool.and_eq_true] at h
    exact ih h.2

theorem nodupB_disjoint {a b : List String} (h : nodupB (a ++ b) = true) :
    ∀ n ∈ a, n ∉ b := by
  induction a with
  | nil => simp
  | cons x t ih =>
    intro n hn
    simp only [List.cons_append, nodupB, Bool.and_eq_true] at h
    rcases List.mem_cons.mp hn with rfl | hn2
    · intro hb
      have hmt : memB n (t ++ b) = true := by
        rw [memB_append, memB_iff.mpr hb]
        simp
      simp [hmt] at h
    · exact ih h.2 n hn2

theorem getCol?_dropAll_of_not_mem {ns : List String} {df : DFrame} {n : String}
    (h : n ∉ ns) :
    getCol? (dropAll ns df) n = getCol? df n := by
  induction df with
  | nil => rfl
  | cons c t ih =>
    rw [dropAll, List.filter_cons]
    by_cases hc : memB c.name ns = true
    · have hne : ¬(c.name = n) := fun he => h (he ▸ memB_iff.mp hc)
      simp only [hc, Bool.not_true, if_neg (Bool.false_ne_true)]
      rw [show getCol? (c :: t) n = getCol? t n from
        List.find?_cons_of_neg _ (by simpa using hne)]
      exact ih
    · simp only [Bool.not_eq_true] at hc
      simp only [hc, Bool.not_false]
      rw [if_pos trivial]
      by_cases he : c.name = n
      · rw [show getCol? (c :: List.filter (fun c => !memB c.name ns) t) n
            = some c from List.find?_cons_of_pos _ (by simpa using he),
          show getCol? (c :: t) n = some c from
            List.find?_cons_of_pos _ (by simpa using he)]
      · rw [show getCol? (c :: List.filter (fun c => !memB c.name ns) t) n
            = getCol? (List.filter (fun c => !memB c.name ns) t) n from
            List.find?_cons_of_neg _ (by simpa using he),
          show getCol? (c :: t) n = getCol? t n from
            List.find?_cons_of_neg _ (by simpa using he)]
        exact ih

theorem string_append_cancel {a b s : String} (h : a ++ s = b ++ s) : a = b := by
  have hd : a.data ++ s.data = b.data ++ s.data := by
    have := congrArg String.data h
    simpa [String.data_append] using this
  exact String.ext (List.append_cancel_right hd)

theorem getCol?_mapMk (mk : String → Col) (suf : String)
    (hname : ∀ x, (mk x).name = x ++ suf) (ncols : List String) {c : String}
    (hc : c ∈ ncols) :
    getCol? (ncols.map mk) (c ++ suf) = some (mk c) := by
  induction ncols with
  | nil => exact absurd hc (List.not_mem_nil c)
  | cons x t ih =>
    by_cases he : x = c
    · subst he
      rw [List.map_cons, getCol?, List.find?_cons_of_pos _ (by simp [hname x])]
    · have hne : ¬((mk x).name = c ++ suf) := by
        rw [hname x]
        intro hcontra
        exact he (string_append_cancel hcontra)
      rw [List.map_cons, getCol?, List.find?_cons_of_neg _ (by simpa using hne)]
      rcases List.mem_cons.mp hc with rfl | hct
      · exact absurd rfl he
      · exact ih hct

theorem getCol?_dropAll_of_mem {ns : List String} {df : DFrame} {n : String}
    (h : n ∈ ns) :
    getCol? (dropAll ns df) n = none := by
  induction df with
  | nil => rfl
  | cons c t ih =>
    rw [dropAll, List.filter_cons]
    by_cases hc : memB c.name ns = true
    · simp only [hc, Bool.not_true, if_neg (Bool.false_ne_true)]
      exact ih
    · have hne : ¬(c.name = n) := by
        intro he
        rw [he] at hc
        exact hc (memB_iff.mpr h)
      simp only [Bool.not_eq_true] at hc
      simp only [hc, Bool.not_false]
      rw [if_pos trivial]
      rw [show getCol? (c :: List.filter (fun c => !memB c.name ns) t) n
          = getCol? (List.filter (fun c => !memB c.name ns) t) n from
          List.find?_cons_of_neg _ (by simpa using hne)]
      exact ih

/-! ## Name preservation of the in-place passes -/

theorem stripF_name (c : Col) : (stripF c).name = c.name := by
  unfold stripF
  split <;> rfl

theorem sentinelF_name (c : Col) : (sentinelF c).name = c.name := by
  unfold sentinelF
  split <;> rfl

theorem coerceF_name (c : Col) : (coerceF c).name = c.name := by
  unfold coerceF
  split
  · rfl
  · split <;> rfl

theorem agePlausF_name (c : Col) : (agePlausF c).name = c.name := by
  unfold agePlausF
  split <;> rfl

theorem negScrubF_name (c : Col) : (negScrubF c).name = c.name := by
  unfold negScrubF
  split <;> rfl

theorem outlierF_name (ncols : List String) (df : DFrame) (c : Col) :
    (outlierF ncols df c).name = c.name := by
  unfold outlierF
  split <;> rfl

theorem imputeNumF_name (ncols : List String) (df : DFrame) (c : Col) :
    (imputeNumF ncols df c).name = c.name := by
  unfold imputeNumF
  split <;> rfl

theorem imputeCatF_name (ccols : List String) (df : DFrame) (c : Col) :
    (imputeCatF ccols df c).name = c.name := by
  unfold imputeCatF
  split <;> rfl

theorem occImputeF_name (df : DFrame) (c : Col) :
    (occImputeF df c).name = c.name := by
  unfold occImputeF
  split
  · rfl
  · split <;> rfl

theorem loanFillF_name (c : Col) : (loanFillF c).name = c.name := by
  unfold loanFillF
  split <;> rfl

theorem fixedMapF_name (c : Col) : (fixedMapF c).name = c.name := by
  unfold fixedMapF
  split
  · rfl
  · split <;> rfl

theorem autoEncF_name (maps : List (String × List (Val × ℕ))) (c : Col) :
    (autoEncF maps c).name = c.name := by
  unfold autoEncF
  cases mapLookup maps c.name <;> rfl

/-! ## Column-name bookkeeping of the frame passes -/

theorem names_normFrame (df : DFrame) : names (normFrame df) = names df := by
  rw [normFrame, sentinelStage, stripStage, names_mapCols _ sentinelF_name,
    names_mapCols _ stripF_name]

theorem names_scrubFrame (d2 : DFrame) : names (scrubFrame d2) = names d2 := by
  rw [scrubFrame, negScrubStage, agePlausStage, names_mapCols _ negScrubF_name,
    names_mapCols _ agePlausF_name]

theorem names_map_mk (mk : String → Col) (suf : String)
    (hname : ∀ x, (mk x).name = x ++ suf) (ncols : List String) :
    names (ncols.map mk) = ncols.map (· ++ suf) := by
  simp only [names, List.map_map]
  exact List.map_congr_left (fun x _ => hname x)

theorem names_medianJoin (ncols : List String) (d4 : DFrame) :
    names (medianJoinStage ncols d4) = names d4 ++ ncols.map (· ++ "_median") := by
  rw [medianJoinStage, names_append, names_map_mk _ "_median" (fun x => rfl)]

theorem names_absDev (ncols : List String) (df : DFrame) :
    names (absDevStage ncols df) = names df ++ ncols.map (· ++ "_abs_dev") := by
  rw [absDevStage, names_append, names_map_mk _ "_abs_dev" (fun x => rfl)]

theorem names_madJoin (ncols : List String) (df : DFrame) :
    names (madJoinStage ncols df) = names df ++ ncols.map (· ++ "_mad") := by
  rw [madJoinStage, names_append, names_map_mk _ "_mad" (fun x => rfl)]

theorem names_statFrame (ncols : List String) (d4 : DFrame) :
    names (statFrame ncols d4)
      = names d4 ++ ncols.map (· ++ "_median") ++ ncols.map (· ++ "_abs_dev")
        ++ ncols.map (· ++ "_mad") := by
  rw [statFrame, names_madJoin, names_absDev, names_medianJoin]

theorem names_filterFrame (ncols : List String) (d4 : DFrame) :
    names (filterFrame ncols d4) = names (statFrame ncols d4) := by
  rw [filterFrame, outlierStage, names_mapCols _ (outlierF_name ncols _)]

theorem names_modeJoin (ccols : List String) (df : DFrame) :
    names (modeJoinStage ccols df) = names df ++ ccols.map (· ++ "_mode") := by
  rw [modeJoinStage, names_append, names_map_mk _ "_mode" (fun x => rfl)]

theorem names_occJoin (df : DFrame) :
    names (occJoinStage df) = names df ++ ["median_age_per_occ"] := by
  rw [occJoinStage, names_append]
  rfl

theorem names_imputeFrame (ncols ccols : List String) (d2 : DFrame) :
    names (imputeFrame ncols ccols d2)
      = names d2 ++ ncols.map (· ++ "_median") ++ ncols.map (· ++ "_abs_dev")
        ++ ncols.map (· ++ "_mad") ++ ccols.map (· ++ "_mode")
        ++ ["median_age_per_occ"] := by
  rw [imputeFrame, occImputeStage, names_mapCols _ (occImputeF_name _), names_occJoin,
    imputeCatStage, names_mapCols _ (imputeCatF_name ccols _),
    imputeNumStage, names_mapCols _ (imputeNumF_name ncols _),
    names_modeJoin, names_filterFrame, names_statFrame, names_scrubFrame]

theorem names_loanHot (lts : List String) (df : DFrame) :
    names (loanHotStage lts df) = names df ++ lts.map loanColName := by
  rw [loanHotStage, names_append]
  congr 1
  simp only [names, List.map_map]
  rfl

theorem names_encodeFrame (lts : List String) (maps : List (String × List (Val × ℕ)))
    (d14 : DFrame) :
    names (encodeFrame lts maps d14) = names d14 ++ lts.map loanColName := by
  rw [encodeFrame, autoEncStage, names_mapCols _ (autoEncF_name maps),
    fixedMapStage, names_mapCols _ fixedMapF_name, names_loanHot]

/-! ## Cells of the joined statistic columns -/

theorem cellsOf_medianJoin_new {ncols : List String} {d4 : DFrame} {c : String}
    (hc : c ∈ ncols) (hnotin : (c ++ "_median") ∉ names d4) :
    cellsOf (medianJoinStage ncols d4) (c ++ "_median")
      = medCellsFor (cellsOf d4 "Customer_ID") (cellsOf d4 c) := by
  rw [medianJoinStage, cellsOf_append_right hnotin, cellsOf,
    getCol?_mapMk _ "_median" (fun x => rfl) ncols hc]
  rfl

theorem cellsOf_statFrame_orig {ncols : List String} {d4 : DFrame} {c : String}
    (hc4 : c ∈ names d4) :
    cellsOf (statFrame ncols d4) c = cellsOf d4 c := by
  rw [statFrame, madJoinStage, cellsOf_append_left, absDevStage, cellsOf_append_left,
    medianJoinStage, cellsOf_append_left hc4]
  · rw [names_medianJoin]
    exact List.mem_append_left _ hc4
  · rw [names_absDev, names_medianJoin]
    exact List.mem_append_left _ (List.mem_append_left _ hc4)

theorem cellsOf_statFrame_median {ncols : List String} {d4 : DFrame} {c : String}
    (hc : c ∈ ncols) (hnotin : (c ++ "_median") ∉ names d4) :
    cellsOf (statFrame ncols d4) (c ++ "_median")
      = medCellsFor (cellsOf d4 "Customer_ID") (cellsOf d4 c) := by
  have hmem : (c ++ "_median") ∈ names (medianJoinStage ncols d4) := by
    rw [names_medianJoin]
    exact List.mem_append_right _ (List.mem_map_of_mem _ hc)
  rw [statFrame, madJoinStage, cellsOf_append_left, absDevStage, cellsOf_append_left hmem,
    cellsOf_medianJoin_new hc hnotin]
  rw [names_absDev]
  exact List.mem_append_left _ hmem

theorem cellsOf_filterFrame_numeric {ncols : List String} {d4 : DFrame} {c : String}
    (hc : c ∈ ncols) (hc4 : c ∈ names d4) :
    cellsOf (filterFrame ncols d4) c
      = zipCells3 bandFilter (cellsOf d4 c)
          (cellsOf (statFrame ncols d4) (c ++ "_median"))
          (cellsOf (statFrame ncols d4) (c ++ "_mad")) := by
  have hmem : c ∈ names (statFrame ncols d4) := by
    rw [names_statFrame]
    exact List.mem_append_left _ (List.mem_append_left _ (List.mem_append_left _ hc4))
  obtain ⟨col, hcol⟩ := Option.isSome_iff_exists.mp (getCol?_isSome_iff.mpr hmem)
  have hname := getCol?_name hcol
  rw [filterFrame, outlierStage, cellsOf_mapCols_some _ (outlierF_name ncols _) hcol]
  rw [outlierF, hname, if_pos (memB_iff.mpr hc)]
  have : col.cells = cellsOf (statFrame ncols d4) c := (cellsOf_eq_of_getCol? hcol).symm
  rw [this, cellsOf_statFrame_orig hc4]

theorem cellsOf_filterFrame_other {ncols : List String} {d4 : DFrame} {c : String}
    (hc : c ∉ ncols) :
    cellsOf (filterFrame ncols d4) c = cellsOf (statFrame ncols d4) c := by
  rw [filterFrame, outlierStage]
  apply cellsOf_mapCols_fix _ (outlierF_name ncols _)
  intro col hcol
  rw [outlierF, hcol, if_neg (by simp [memB_eq_false hc])]

/-! ## Dissecting a successful `transform` -/

theorem transform_ok_elim {p : Pipeline} {df : DFrame} {out : DFrame} {p2 : Pipeline}
    (h : transform p df = Except.ok (out, p2)) :
    schemaOK p df = true ∧
    p2 = { p with cols_to_drop := p.cols_to_drop ++ genStatNames p } ∧
    ∃ d2 d14,
      coerceStage (normFrame df) = Except.ok d2 ∧
      loanFillStage (imputeFrame p.numeric_cols p.cat_cols d2) = Except.ok d14 ∧
      dropStrict (p.cols_to_drop ++ genStatNames p)
        (encodeFrame p.loan_types p.cat_mappings d14) = Except.ok out := by
  unfold transform at h
  split at h
  case isFalse => exact absurd h (by simp)
  case isTrue hs =>
    split at h
    case h_1 => exact absurd h (by simp)
    case h_2 d2 hco =>
      split at h
      case h_1 => exact absurd h (by simp)
      case h_2 d14 hfill =>
        split at h
        case h_1 => exact absurd h (by simp)
        case h_2 o hdrop =>
          have hpair := Except.ok.inj h
          have hout : o = out := congrArg Prod.fst hpair
          have hp2 : ({ p with cols_to_drop := p.cols_to_drop ++ genStatNames p } : Pipeline) = p2 :=
            congrArg Prod.snd hpair
          subst hout
          exact ⟨hs, hp2.symm, d2, d14, hco, hfill, hdrop⟩

theorem loanFill_ok_elim {df d14 : DFrame}
    (h : loanFillStage df = Except.ok d14) :
    d14 = mapCols loanFillF df ∧
    ∃ tc, getCol? df "Type_of_Loan" = some tc ∧ tc.dtype = Dtype.dstr := by
  unfold loanFillStage at h
  split at h
  case h_1 => exact absurd h (by simp)
  case h_2 tc htc =>
    split at h
    case isTrue hd => exact ⟨(Except.ok.inj h).symm, tc, htc, hd⟩
    case isFalse => exact absurd h (by simp)

theorem coerce_ok_elim {df d2 : DFrame}
    (h : coerceStage df = Except.ok d2) : d2 = mapCols coerceF df := by
  unfold coerceStage at h
  by_cases hc : ((castCols.all (castableCol df)) && historyColOK df) = true
  · rw [if_pos hc] at h
    exact (Except.ok.inj h).symm
  · rw [if_neg hc] at h
    exact absurd h (by simp)

theorem dropStrict_ok_elim {ns : List String} {df out : DFrame}
    (h : dropStrict ns df = Except.ok out) : out = dropAll ns df := by
  unfold dropStrict at h
  by_cases hc : (ns.all (fun n => memB n (names df))) = true
  · rw [if_pos hc] at h
    exact (Except.ok.inj h).symm
  · rw [if_neg hc] at h
    exact absurd h (by simp)

/-! ## Cells preservation through the post-filter stages -/

theorem cellsOf_imputeNum_numeric {ncols : List String} {df : DFrame} {c : String}
    (hc : c ∈ ncols) (hmem : c ∈ names df) :
    cellsOf (imputeNumStage ncols df) c
      = List.zipWith coalesceCell (cellsOf df c) (cellsOf df (c ++ "_median")) := by
  obtain ⟨col, hcol⟩ := Option.isSome_iff_exists.mp (getCol?_isSome_iff.mpr hmem)
  have hname := getCol?_name hcol
  rw [imputeNumStage, cellsOf_mapCols_some _ (imputeNumF_name ncols _) hcol,
    imputeNumF, hname, if_pos (memB_iff.mpr hc), ← cellsOf_eq_of_getCol? hcol]

theorem cellsOf_imputeCat_other {ccols : List String} {df : DFrame} {c : String}
    (hc : c ∉ ccols) :
    cellsOf (imputeCatStage ccols df) c = cellsOf df c := by
  rw [imputeCatStage]
  apply cellsOf_mapCols_fix _ (imputeCatF_name ccols _)
  intro col hcol
  rw [imputeCatF, hcol, if_neg (by simp [memB_eq_false hc])]

theorem cellsOf_occImpute_other {df : DFrame} {c : String}
    (hage : c ≠ "Age") (hsal : c ≠ "Monthly_Inhand_Salary") :
    cellsOf (occImputeStage df) c = cellsOf df c := by
  rw [occImputeStage]
  apply cellsOf_mapCols_fix _ (occImputeF_name _)
  intro col hcol
  rw [occImputeF, hcol, if_neg hage, if_neg hsal]

theorem cellsOf_loanFill_other {df : DFrame} {c : String}
    (hc : c ≠ "Type_of_Loan") :
    cellsOf (mapCols loanFillF df) c = cellsOf df c := by
  apply cellsOf_mapCols_fix _ loanFillF_name
  intro col hcol
  rw [loanFillF, hcol, if_neg hc]

theorem cellsOf_fixedMap_other {df : DFrame} {c : String}
    (hcm : c ≠ "Credit_Mix") (hpm : c ≠ "Payment_of_Min_Amount") :
    cellsOf (fixedMapStage df) c = cellsOf df c := by
  rw [fixedMapStage]
  apply cellsOf_mapCols_fix _ fixedMapF_name
  intro col hcol
  rw [fixedMapF, hcol, if_neg hcm, if_neg hpm]

theorem cellsOf_autoEnc_other {maps : List (String × List (Val × ℕ))} {df : DFrame}
    {c : String} (hc : mapLookup maps c = none) :
    cellsOf (autoEncStage maps df) c = cellsOf df c := by
  rw [autoEncStage]
  apply cellsOf_mapCols_fix _ (autoEncF_name maps)
  intro col hcol
  rw [autoEncF, hcol, hc]

theorem cellsOf_dropAll_other {ns : List String} {df : DFrame} {c : String}
    (hc : c ∉ ns) :
    cellsOf (dropAll ns df) c = cellsOf df c := by
  rw [cellsOf, getCol?_dropAll_of_not_mem hc, cellsOf]

/-! ## Schema-guard consequences -/

theorem schemaOK_elim {p : Pipeline} {df : DFrame} (h : schemaOK p df = true) :
    (∀ n ∈ requiredNames p, n ∈ names df)
      ∧ nodupB (names df ++ guardNames p) = true := by
  simp only [schemaOK, Bool.and_eq_true] at h
  exact ⟨fun n hn => memB_iff.mp (List.all_eq_true.mp h.1.1 n hn), h.1.2⟩

theorem guard_not_in_names {p : Pipeline} {df : DFrame}
    (hnd : nodupB (names df ++ guardNames p) = true) {n : String}
    (hg : n ∈ guardNames p) : n ∉ names df := by
  intro hdf
  exact (nodupB_disjoint hnd n hdf) hg

theorem genStatNames_subset_guard {p : Pipeline} {n : String}
    (h : n ∈ genStatNames p) : n ∈ guardNames p := by
  unfold genStatNames at h
  unfold guardNames
  rcases List.mem_append.mp h with hl | hr
  · rcases List.mem_flatten.mp hl with ⟨l, hlmem, hnl⟩
    rcases List.mem_map.mp hlmem with ⟨x, hx, rfl⟩
    simp only [List.mem_cons, List.not_mem_nil, or_false] at hnl
    rcases hnl with rfl | rfl | rfl
    · exact List.mem_append_left _ (List.mem_append_left _ (List.mem_append_left _
        (List.mem_append_left _ (List.mem_append_left _ (List.mem_map_of_mem _ hx)))))
    · exact List.mem_append_left _ (List.mem_append_left _ (List.mem_append_left _
        (List.mem_append_left _ (List.mem_append_right _ (List.mem_map_of_mem _ hx)))))
    · exact List.mem_append_left _ (List.mem_append_left _ (List.mem_append_left _
        (List.mem_append_right _ (List.mem_map_of_mem _ hx))))
  · exact List.mem_append_left _ (List.mem_append_left _ (List.mem_append_right _ hr))

theorem med_mem_guard {p : Pipeline} {c : String} (hc : c ∈ p.numeric_cols) :
    (c ++ "_median") ∈ guardNames p := by
  unfold guardNames
  exact List.mem_append_left _ (List.mem_append_left _ (List.mem_append_left _
    (List.mem_append_left _ (List.mem_append_left _ (List.mem_map_of_mem _ hc)))))

/-- Central data-flow fact behind claims C1 and C10: for a generic declared
numeric column (none of the specially-handled columns), the output cells are
the outlier-filtered cells coalesced with group medians computed on the
pre-filter frame `scrubFrame d2` — not on the filtered frame. -/
theorem cellsOf_out_numeric {p : Pipeline} {df out : DFrame} {p2 : Pipeline}
    {d2 : DFrame} {c : String}
    (hok : transform p df = Except.ok (out, p2))
    (hco : coerceStage (normFrame df) = Except.ok d2)
    (hc : c ∈ p.numeric_cols)
    (hage : c ≠ "Age") (hsal : c ≠ "Monthly_Inhand_Salary")
    (htol : c ≠ "Type_of_Loan") (hcm : c ≠ "Credit_Mix")
    (hpm : c ≠ "Payment_of_Min_Amount")
    (hcat : c ∉ p.cat_cols)
    (hmaps : mapLookup p.cat_mappings c = none)
    (hdrop1 : c ∉ p.cols_to_drop) :
    cellsOf out c
      = List.zipWith coalesceCell
          (cellsOf (filterFrame p.numeric_cols (scrubFrame d2)) c)
          (medCellsFor (cellsOf (scrubFrame d2) "Customer_ID")
            (cellsOf (scrubFrame d2) c)) := by
  obtain ⟨hs, hp2, d2x, d14, hcox, hfill, hdropS⟩ := transform_ok_elim hok
  rw [hco] at hcox
  have hd2 : d2 = d2x := Except.ok.inj hcox
  subst hd2
  obtain ⟨hreq, hnd⟩ := schemaOK_elim hs
  -- membership of `c` in the input schema
  have hcreq : c ∈ requiredNames p := by
    unfold requiredNames
    exact List.mem_append_left _ (List.mem_append_left _ (List.mem_append_left _
      (List.mem_append_right _ hc)))
  have hcdf : c ∈ names df := hreq c hcreq
  -- the generated statistic names do not occur in the input schema
  have hmg : (c ++ "_median") ∈ guardNames p := med_mem_guard hc
  have hmeddf : (c ++ "_median") ∉ names df := guard_not_in_names hnd hmg
  -- name bookkeeping for the intermediate frames
  have hnames2 : names d2 = names df := by
    rw [coerce_ok_elim hco, names_mapCols _ coerceF_name, names_normFrame]
  have hc4 : c ∈ names (scrubFrame d2) := by
    rw [names_scrubFrame, hnames2]
    exact hcdf
  have hmed4 : (c ++ "_median") ∉ names (scrubFrame d2) := by
    rw [names_scrubFrame, hnames2]
    exact hmeddf
  have hmedninc : (c ++ "_median") ∉ p.numeric_cols := by
    intro hmem
    exact hmeddf (hreq _ (by
      unfold requiredNames
      exact List.mem_append_left _ (List.mem_append_left _ (List.mem_append_left _
        (List.mem_append_right _ hmem)))))
  -- peel the stages off, outside in
  have hout : out = dropAll (p.cols_to_drop ++ genStatNames p)
      (encodeFrame p.loan_types p.cat_mappings d14) := dropStrict_ok_elim hdropS
  have hcnotdrop : c ∉ p.cols_to_drop ++ genStatNames p := by
    intro hmem
    rcases List.mem_append.mp hmem with h1 | h2
    · exact hdrop1 h1
    · exact guard_not_in_names hnd (genStatNames_subset_guard h2) hcdf
  obtain ⟨hd14, tc, htc, htcd⟩ := loanFill_ok_elim hfill
  have hcfilter : c ∈ names (filterFrame p.numeric_cols (scrubFrame d2)) := by
    rw [names_filterFrame, names_statFrame]
    exact List.mem_append_left _ (List.mem_append_left _ (List.mem_append_left _ hc4))
  have hcmode : c ∈ names (modeJoinStage p.cat_cols
      (filterFrame p.numeric_cols (scrubFrame d2))) := by
    rw [names_modeJoin]
    exact List.mem_append_left _ hcfilter
  have hmedfilter : (c ++ "_median") ∈ names (filterFrame p.numeric_cols (scrubFrame d2)) := by
    rw [names_filterFrame, names_statFrame]
    exact List.mem_append_left _ (List.mem_append_left _
      (List.mem_append_right _ (List.mem_map_of_mem _ hc)))
  have hcd14 : c ∈ names d14 := by
    rw [hd14, names_mapCols _ loanFillF_name, names_imputeFrame]
    exact List.mem_append_left _ (List.mem_append_left _ (List.mem_append_left _
      (List.mem_append_left _ (List.mem_append_left _ (hnames2 ▸ hcdf)))))
  calc cellsOf out c
      = cellsOf (encodeFrame p.loan_types p.cat_mappings d14) c := by
        rw [hout, cellsOf_dropAll_other hcnotdrop]
    _ = cellsOf d14 c := by
        rw [encodeFrame, cellsOf_autoEnc_other hmaps, cellsOf_fixedMap_other hcm hpm,
          loanHotStage, cellsOf_append_left hcd14]
    _ = cellsOf (imputeFrame p.numeric_cols p.cat_cols d2) c := by
        rw [hd14, cellsOf_loanFill_other htol]
    _ = cellsOf (imputeNumStage p.numeric_cols (modeJoinStage p.cat_cols
          (filterFrame p.numeric_cols (scrubFrame d2)))) c := by
        rw [imputeFrame, cellsOf_occImpute_other hage hsal, occJoinStage,
          cellsOf_append_left, cellsOf_imputeCat_other hcat]
        rw [imputeCatStage, names_mapCols _ (imputeCatF_name p.cat_cols _),
          imputeNumStage, names_mapCols _ (imputeNumF_name p.numeric_cols _),
          names_modeJoin]
        exact List.mem_append_left _ hcfilter
    _ = List.zipWith coalesceCell
          (cellsOf (filterFrame p.numeric_cols (scrubFrame d2)) c)
          (medCellsFor (cellsOf (scrubFrame d2) "Customer_ID")
            (cellsOf (scrubFrame d2) c)) := by
        rw [cellsOf_imputeNum_numeric hc hcmode, modeJoinStage, cellsOf_append_left hcfilter,
          cellsOf_append_left hmedfilter, cellsOf_filterFrame_other hmedninc,
          cellsOf_statFrame_median hc hmed4]

/-! ## Decimal-run parsing lemmas (for the history regex) -/

theorem decVal_nil : decVal [] = 0 := by
  simp [decVal, Nat.ofDigits]

theorem decVal_cons (c : Char) (ds : List Char) :
    decVal (c :: ds) = digitVal c * 10 ^ ds.length + decVal ds := by
  unfold decVal
  rw [List.map_cons, List.reverse_cons, Nat.ofDigits_append]
  simp [Nat.ofDigits, Nat.mul_comm]
  ring

theorem readDigits_step_arith (a : ℕ) (c : Char) (ds : List Char) :
    (10 * a + digitVal c) * 10 ^ ds.length + decVal ds
      = a * 10 ^ (ds.length + 1) + decVal (c :: ds) := by
  rw [decVal_cons]
  ring

/-- Complete evaluation of the greedy digit reader on a digit run followed
by a non-digit continuation. -/
theorem readDigits_append (ds rest : List Char) (a : ℕ)
    (hds : ds.all Char.isDigit = true) (hr : headDigit rest = false) :
    readDigits (ds ++ rest) a = (a * 10 ^ ds.length + decVal ds, rest) := by
  induction ds generalizing a with
  | nil =>
    cases rest with
    | nil => simp [readDigits, decVal_nil]
    | cons r t =>
      have hrd : r.isDigit = false := by simpa [headDigit] using hr
      simp [readDigits, hrd, decVal_nil]
  | cons c t ih =>
    simp only [List.all_cons, Bool.and_eq_true] at hds
    rw [List.cons_append]
    simp only [readDigits, hds.1, if_true]
    rw [ih _ hds.2, readDigits_step_arith]
    rw [List.length_cons]

/-- Soundness of the greedy digit reader: the input splits into the consumed
digit run and the remainder, which does not start with a digit. -/
theorem readDigits_spec (l : List Char) (a : ℕ) :
    ∃ ds, ds.all Char.isDigit = true ∧ l = ds ++ (readDigits l a).2
      ∧ (readDigits l a).1 = a * 10 ^ ds.length + decVal ds
      ∧ headDigit (readDigits l a).2 = false := by
  induction l generalizing a with
  | nil => exact ⟨[], rfl, rfl, by simp [readDigits, decVal_nil], rfl⟩
  | cons c t ih =>
    by_cases hd : c.isDigit = true
    · obtain ⟨ds, hds, hsplit, hval, hhd⟩ := ih (10 * a + digitVal c)
      refine ⟨c :: ds, ?_, ?_, ?_, ?_⟩
      · simp [List.all_cons, hd, hds]
      · simp only [readDigits, hd, if_true]
        rw [List.cons_append, ← hsplit]
      · simp only [readDigits, hd, if_true]
        rw [hval, readDigits_step_arith, List.length_cons]
      · simp only [readDigits, hd, if_true]
        exact hhd
    · refine ⟨[], rfl, ?_, ?_, ?_⟩
      · simp [readDigits, hd]
      · simp [readDigits, hd, decVal_nil]
      · simp [readDigits, hd, headDigit]

theorem stripLit_append (lit r : List Char) : stripLit lit (lit ++ r) = some r := by
  induction lit with
  | nil => rfl
  | cons p ps ih => simp [stripLit, ih]

theorem stripLit_some {lit l r : List Char} (h : stripLit lit l = some r) :
    l = lit ++ r := by
  induction lit generalizing l with
  | nil => simpa [stripLit] using (Option.some.inj h)
  | cons p ps ih =>
    cases l with
    | nil => exact absurd h (by simp [stripLit])
    | cons c cs =>
      by_cases he : c = p
      · subst he
        rw [show stripLit (c :: ps) (c :: cs) = stripLit ps cs by simp [stripLit]] at h
        rw [List.cons_append, ← ih h]
      · simp [stripLit, he] at h

/-- The two literal pieces of the history regex. -/
theorem headDigit_yearsLit : headDigit (" Years and ".toList) = false := by decide

theorem headDigit_monthsLit : headDigit (" Months".toList) = false := by decide

theorem headDigit_cons_digit {ds : List Char} {r : List Char}
    (h1 : ds ≠ []) (hd : ds.all Char.isDigit = true) :
    headDigit (ds ++ r) = true := by
  cases ds with
  | nil => exact absurd rfl h1
  | cons c t =>
    simp only [List.all_cons, Bool.and_eq_true] at hd
    simpa [headDigit] using hd.1

theorem headDigit_yearsLit_append (r : List Char) :
    headDigit (" Years and ".toList ++ r) = false := by
  have hl : " Years and ".toList = ' ' :: "Years and ".toList := by decide
  rw [hl, List.cons_append]
  simp [headDigit]

theorem headDigit_monthsLit_append (r : List Char) :
    headDigit (" Months".toList ++ r) = false := by
  have hl : " Months".toList = ' ' :: "Months".toList := by decide
  rw [hl, List.cons_append]
  simp [headDigit]

/-- Complete evaluation of the history parse on a well-formed input, with an
arbitrary tail after `"Months"` (the regex is anchored at the start only). -/
theorem parseHistory_complete (ds1 ds2 rest : List Char)
    (h1 : ds1 ≠ []) (h2 : ds2 ≠ [])
    (hd1 : ds1.all Char.isDigit = true) (hd2 : ds2.all Char.isDigit = true) :
    parseHistoryChars (ds1 ++ (" Years and ".toList ++ (ds2 ++ (" Months".toList ++ rest))))
      = some ((decVal ds1 * 12 + decVal ds2 : ℕ) : ℤ) := by
  have hh1 := headDigit_cons_digit (r := " Years and ".toList ++ (ds2 ++ (" Months".toList ++ rest))) h1 hd1
  have hrd1 := readDigits_append ds1 (" Years and ".toList ++ (ds2 ++ (" Months".toList ++ rest))) 0
    hd1 (headDigit_yearsLit_append _)
  have hh2 := headDigit_cons_digit (r := " Months".toList ++ rest) h2 hd2
  have hrd2 := readDigits_append ds2 (" Months".toList ++ rest) 0 hd2 (headDigit_monthsLit_append _)
  unfold parseHistoryChars
  rw [if_pos hh1, hrd1]
  simp only
  rw [stripLit_append]
  simp only
  rw [if_pos hh2, hrd2]
  simp only
  rw [stripLit_append]
  simp

/-- Soundness of the history parse: a successful parse exhibits the regex
decomposition of the input. -/
theorem parseHistory_sound {l : List Char} {k : ℤ}
    (h : parseHistoryChars l = some k) :
    ∃ ds1 ds2 rest, ds1 ≠ [] ∧ ds2 ≠ []
      ∧ ds1.all Char.isDigit = true ∧ ds2.all Char.isDigit = true
      ∧ l = ds1 ++ (" Years and ".toList ++ (ds2 ++ (" Months".toList ++ rest)))
      ∧ k = ((decVal ds1 * 12 + decVal ds2 : ℕ) : ℤ) := by
  unfold parseHistoryChars at h
  by_cases hh1 : headDigit l = true
  · rw [if_pos hh1] at h
    obtain ⟨ds1, hd1, hsplit1, hval1, hhd1⟩ := readDigits_spec l 0
    cases hstrip1 : stripLit " Years and ".toList (readDigits l 0).2 with
    | none => rw [hstrip1] at h; exact absurd h (by simp)
    | some r2 =>
      rw [hstrip1] at h
      simp only at h
      by_cases hh2 : headDigit r2 = true
      · rw [if_pos hh2] at h
        obtain ⟨ds2, hd2, hsplit2, hval2, hhd2⟩ := readDigits_spec r2 0
        cases hstrip2 : stripLit " Months".toList (readDigits r2 0).2 with
        | none => rw [hstrip2] at h; exact absurd h (by simp)
        | some r4 =>
          rw [hstrip2] at h
          simp only at h
          have hne1 : ds1 ≠ [] := by
            intro hnil
            rw [hnil, List.nil_append] at hsplit1
            rw [← hsplit1] at hhd1
            rw [hh1] at hhd1
            exact absurd hhd1 (by simp)
          have hne2 : ds2 ≠ [] := by
            intro hnil
            rw [hnil, List.nil_append] at hsplit2
            rw [← hsplit2] at hhd2
            rw [hh2] at hhd2
            exact absurd hhd2 (by simp)
          refine ⟨ds1, ds2, r4, hne1, hne2, hd1, hd2, ?_, ?_⟩
          · rw [hsplit1, stripLit_some hstrip1, hsplit2, stripLit_some hstrip2]
          · have hk := (Option.some.inj h).symm
            rw [hk, hval1, hval2]
            simp
      · rw [if_neg hh2] at h
        exact absurd h (by simp)
  · rw [if_neg hh1] at h
    exact absurd h (by simp)

/-! ## The computable rational wrappers agree with the standard operations -/

theorem qadd_eq (a b : ℚ) : qadd a b = a + b := by
  rw [qadd, Rat.add_def, Rat.normalize_eq_mkRat]

theorem qsub_eq (a b : ℚ) : qsub a b = a - b := by
  rw [qsub, Rat.sub_def, Rat.normalize_eq_mkRat]

theorem qmul_eq (a b : ℚ) : qmul a b = a * b := by
  rw [qmul, Rat.mul_def, Rat.normalize_eq_mkRat]

theorem qneg_eq (a : ℚ) : qneg a = -a := by
  rw [qneg, Rat.mkRat_eq_div]
  push_cast
  rw [neg_div, Rat.num_div_den]

theorem qdivN_eq (a : ℚ) (n : ℕ) : qdivN a n = a / (n : ℚ) := by
  rw [qdivN, Rat.mkRat_eq_div]
  push_cast
  rw [← div_div, Rat.num_div_den]

theorem qabsSub_eq (a b : ℚ) : qabsSub a b = |a - b| := by
  rw [qabsSub, qsub_eq, qsub_eq]
  by_cases h : a - b < 0
  · rw [if_pos h, abs_of_neg h, neg_sub]
  · rw [if_neg h, abs_of_nonneg (le_of_not_lt h)]

/-! ## Index access into three-way cell zips -/

theorem get?_zipCells3 (f : Option Val → Option Val → Option Val → Option Val)
    (a b c : List (Option Val)) (i : ℕ) :
    (zipCells3 f a b c).get? i =
      (a.get? i).bind (fun x => (b.get? i).bind (fun y => (c.get? i).map (fun z => f x y z))) := by
  induction a generalizing b c i with
  | nil => cases b <;> cases c <;> simp [zipCells3]
  | cons x xs ih =>
    cases b with
    | nil => simp [zipCells3]
    | cons y ys =>
      cases c with
      | nil => simp [zipCells3]
      | cons z zs =>
        cases i with
        | zero => simp [zipCells3]
        | succ j => simpa [zipCells3] using ih ys zs j

theorem get?_mapCells (f : Option Val → Option Val) (l : List (Option Val)) (i : ℕ) :
    (l.map f).get? i = (l.get? i).map f := by
  induction l generalizing i with
  | nil => simp
  | cons x xs ih =>
    cases i with
    | zero => simp
    | succ j => simp [ih j]

theorem get?_zipWith (f : Option Val → Option Val → Option Val)
    (a b : List (Option Val)) (i : ℕ) :
    (List.zipWith f a b).get? i =
      (a.get? i).bind (fun x => (b.get? i).map (fun y => f x y)) := by
  induction a generalizing b i with
  | nil => cases b <;> simp
  | cons x xs ih =>
    cases b with
    | nil => simp
    | cons y ys =>
      cases i with
      | zero => simp
      | succ j => simpa using ih ys j

/-! ## Claim C6 -/

/-- C6: for a table with exactly two records for one customer with ages 150
and 25, TypeCoercer nulls the implausible age 150, the group age median and
MAD are computed from `{25}` alone (median 25, MAD 0), and the imputer fills
the nulled age with 25, so both output records carry age 25. -/
theorem C6_theorem :
    cellsOf (scrubFrame ((coerceStage (normFrame tC6)).toOption.getD [])) "Age"
        = [none, some (Val.vf 25)]
    ∧ cellsOf (statFrame ["Age"] (scrubFrame ((coerceStage (normFrame tC6)).toOption.getD [])))
        "Age_median" = [some (Val.vf 25), some (Val.vf 25)]
    ∧ cellsOf (statFrame ["Age"] (scrubFrame ((coerceStage (normFrame tC6)).toOption.getD [])))
        "Age_mad" = [some (Val.vf 0), some (Val.vf 0)]
    ∧ (transform pC6 tC6).toOption.map (fun r => cellsOf r.1 "Age")
        = some [some (Val.vf 25), some (Val.vf 25)] := by
  refine ⟨by decide, by decide, by decide, by decide⟩

/-! ## Claim C9 -/

/-- C9: the claim says the UI removes the `Credit_Score` label column before
handing the table to `transform`.  The code calls `input_df.drop(...)` but
discards the result, so the frame passed to `transform` is the original
table and still carries the label column — a code bug (the guard shows the
removal was intended). -/
theorem C9_theorem :
    appTableForTransform tC9 = tC9
    ∧ memB "Credit_Score" (names (appTableForTransform tC9)) = true := by
  refine ⟨by decide, by decide⟩

/-! ## Claim C7 -/

/-- C7: the credit-history parse maps `"<N> Years and <M> Months"` to
`N*12 + M` months (`"3 Years and 7 Months" ↦ 43`), maps null to null, maps
the malformed `"Years and Months"` to null, evaluates every well-formed
input (arbitrary trailing text, since `re.match` anchors at the start
only), and any successful parse exhibits the regex decomposition — so every
non-matching string yields null, with no partial parse. -/
theorem C7_theorem :
    history_to_months (some "3 Years and 7 Months") = some 43
    ∧ history_to_months none = none
    ∧ history_to_months (some "Years and Months") = none
    ∧ (∀ ds1 ds2 rest : List Char, ds1 ≠ [] → ds2 ≠ [] →
        ds1.all Char.isDigit = true → ds2.all Char.isDigit = true →
        history_to_months (some (String.mk (ds1 ++ (" Years and ".toList
          ++ (ds2 ++ (" Months".toList ++ rest))))))
          = some ((decVal ds1 * 12 + decVal ds2 : ℕ) : ℤ))
    ∧ (∀ (s : String) (k : ℤ), history_to_months (some s) = some k →
        ∃ ds1 ds2 rest, ds1 ≠ [] ∧ ds2 ≠ []
          ∧ ds1.all Char.isDigit = true ∧ ds2.all Char.isDigit = true
          ∧ s.toList = ds1 ++ (" Years and ".toList ++ (ds2 ++ (" Months".toList ++ rest)))
          ∧ k = ((decVal ds1 * 12 + decVal ds2 : ℕ) : ℤ)) := by
  refine ⟨by decide, rfl, by decide, ?_, ?_⟩
  · intro ds1 ds2 rest h1 h2 hd1 hd2
    have h := parseHistory_complete ds1 ds2 rest h1 h2 hd1 hd2
    simpa [history_to_months, String.toList] using h
  · intro s k h
    have h2 : parseHistoryChars s.toList = some k := by
      simpa [history_to_months] using h
    exact parseHistory_sound h2

/-- Witness for C7: the well-formed-input clause applied at
`"4 Years and 2 Months"`. -/
theorem C7_witness :
    history_to_months (some (String.mk (['4'] ++ (" Years and ".toList
      ++ (['2'] ++ (" Months".toList ++ []))))))
      = some ((decVal ['4'] * 12 + decVal ['2'] : ℕ) : ℤ) :=
  C7_theorem.2.2.2.1 ['4'] ['2'] [] (by decide) (by decide) (by decide) (by decide)

/-! ## Claim C1 — counterexample -/

/-- C1 as stated is false: in `tC1` the customer's pre-filter
`Num_of_Loan` values 1, 2, 3, 1000 have median 5/2 and MAD 1, so 1000 is
filtered out; the surviving values 1, 2, 3 have median 2, yet the two nulls
are imputed with 5/2, the median of the pre-filter values — the group
medians are computed before `RobustOutlierFilter`, not recomputed after
it. -/
theorem C1_counterexample :
    (transform pC1 tC1).toOption.map (fun r => cellsOf r.1 "Num_of_Loan")
      = some [some (Val.vf 1), some (Val.vf 2), some (Val.vf 3),
          some (Val.vf (mkRat 5 2)), some (Val.vf (mkRat 5 2))]
    ∧ (coerceStage (normFrame tC1)).toOption.map (fun d2 =>
        cellsOf (filterFrame ["Num_of_Loan"] (scrubFrame d2)) "Num_of_Loan")
      = some [some (Val.vf 1), some (Val.vf 2), some (Val.vf 3), none, none]
    ∧ medianQ [1, 2, 3] = some 2
    ∧ (mkRat 5 2 : ℚ) ≠ 2 := by
  refine ⟨by decide, by decide, by decide, by decide⟩

/-! ## Claim C2 — counterexample -/

/-- C2 as stated is false: `transform` mutates the instance — the drop list
`cols_to_drop` is not identical before and after the call (the generated
statistic column names are appended on every call). -/
theorem C2_counterexample :
    (pipeOf (transform pC6 tC6)).map (fun q => q.cols_to_drop)
        ≠ some pC6.cols_to_drop
    ∧ (pipeOf (transform pC6 tC6)).isSome = true := by
  refine ⟨by decide, by decide⟩

/-! ## Claim C3 — counterexample -/

/-- C3 as stated is false for a zero MAD: in `tC3` the customer's
`Num_of_Loan` values 5, 5, 8 give group median 5 and MAD 0; the claim says
no filtering is applied when the MAD is zero, but the value 8 is replaced
by null (the band degenerates to the single point 5 and is enforced). -/
theorem C3_counterexample :
    (coerceStage (normFrame tC3)).toOption.map (fun d2 =>
      (cellsOf (filterFrame ["Num_of_Loan"] (scrubFrame d2)) "Num_of_Loan",
        cellsOf (statFrame ["Num_of_Loan"] (scrubFrame d2)) "Num_of_Loan_mad",
        cellsOf (statFrame ["Num_of_Loan"] (scrubFrame d2)) "Num_of_Loan_median"))
      = some ([some (Val.vf 5), some (Val.vf 5), none],
          [some (Val.vf 0), some (Val.vf 0), some (Val.vf 0)],
          [some (Val.vf 5), some (Val.vf 5), some (Val.vf 5)]) := by
  decide

/-! ## Claim C4 — counterexample -/

/-- C4 as stated is false: on the already-clean table `tC4` one application
of `transform` succeeds, but applying `transform` to its own output fails
(the output no longer carries `Customer_ID`, `Annual_Income` and the other
dropped columns that `transform` requires), so the second application does
not return the same table — it returns no table at all. -/
theorem C4_counterexample :
    exOk (transform (mkPipeline ["Age"] ["Occupation"] ["Auto Loan"] []) tC4) = true
    ∧ exOk (doubleTransform (mkPipeline ["Age"] ["Occupation"] ["Auto Loan"] []) tC4) = false := by
  refine ⟨by decide, by decide⟩

/-! ## Claim C10 — counterexample -/

/-- C10 as stated is false in its imputation consequence: in `tC10` both
customer identifiers ("_" and "!@9#%8") normalise to null, and the two
records do form a single null group during aggregation (whose only
`Num_of_Loan` value is 6, median 6), but a left join never matches null
keys, so the first record's null `Num_of_Loan` is NOT imputed from that
pooled group: it stays null in the output. -/
theorem C10_counterexample :
    cellsOf (normFrame tC10) "Customer_ID" = [none, none]
    ∧ (transform pC10 tC10).toOption.map (fun r => cellsOf r.1 "Num_of_Loan")
        = some [none, some (Val.vf 6)]
    ∧ medianQ [6] = some 6 := by
  refine ⟨by decide, by decide, by decide⟩

/-! ## Claim C1 — amended theorem -/

/-- C1 (amended): for every pipeline and input table on which `transform`
succeeds, and every declared numeric column `c` that is not one of the
specially-handled columns, the output cells of `c` are the outlier-filtered
cells coalesced with the customer-group medians of the PRE-filter frame
(the coerced, scrubbed frame before `RobustOutlierFilter`) — i.e. a numeric
null is imputed with the median of the group's pre-filter values. -/
theorem C1_theorem {p : Pipeline} {df out : DFrame} {p2 : Pipeline}
    {d2 : DFrame} {c : String}
    (hok : transform p df = Except.ok (out, p2))
    (hco : coerceStage (normFrame df) = Except.ok d2)
    (hc : c ∈ p.numeric_cols)
    (hage : c ≠ "Age") (hsal : c ≠ "Monthly_Inhand_Salary")
    (htol : c ≠ "Type_of_Loan") (hcm : c ≠ "Credit_Mix")
    (hpm : c ≠ "Payment_of_Min_Amount")
    (hcat : c ∉ p.cat_cols)
    (hmaps : mapLookup p.cat_mappings c = none)
    (hdrop1 : c ∉ p.cols_to_drop) :
    cellsOf out c
      = List.zipWith coalesceCell
          (cellsOf (filterFrame p.numeric_cols (scrubFrame d2)) c)
          (medCellsFor (cellsOf (scrubFrame d2) "Customer_ID")
            (cellsOf (scrubFrame d2) c)) :=
  cellsOf_out_numeric hok hco hc hage hsal htol hcm hpm hcat hmaps hdrop1

/-- Witness for C1: the amended theorem applied to the concrete pipeline
`pC1` and table `tC1` at the column `Num_of_Loan`. -/
theorem C1_witness :
    cellsOf (outOf (transform pC1 tC1)) "Num_of_Loan"
      = List.zipWith coalesceCell
          (cellsOf (filterFrame pC1.numeric_cols
            (scrubFrame ((coerceStage (normFrame tC1)).toOption.getD []))) "Num_of_Loan")
          (medCellsFor
            (cellsOf (scrubFrame ((coerceStage (normFrame tC1)).toOption.getD []))
              "Customer_ID")
            (cellsOf (scrubFrame ((coerceStage (normFrame tC1)).toOption.getD []))
              "Num_of_Loan")) :=
  @C1_theorem pC1 tC1 (outOf (transform pC1 tC1))
    ((pipeOf (transform pC1 tC1)).getD pC1)
    ((coerceStage (normFrame tC1)).toOption.getD []) "Num_of_Loan"
    (by decide) (by decide) (by decide) (by decide) (by decide) (by decide)
    (by decide) (by decide) (by decide) (by decide) (by decide)

/-! ## Claim C10 — amended theorem -/

/-- C10 (amended): string normalization does apply to `Customer_ID` like any
other string column (underscore strip followed by sentinel-to-null), and
records whose identifier normalises to null form the null group; but the
joined group statistics never match a null key, so for such a record the
output value of a generic declared numeric column is exactly its
outlier-filtered value — no group-based imputation happens for it. -/
theorem C10_theorem :
    (∀ (df : DFrame) (col : Col), getCol? df "Customer_ID" = some col →
      col.dtype = Dtype.dstr →
      cellsOf (normFrame df) "Customer_ID"
        = col.cells.map (fun cell => cell.bind (fun v =>
            match v with
            | Val.vs s =>
                if memB (stripUnd s) sentinels then none else some (Val.vs (stripUnd s))
            | w => some w)))
    ∧ (∀ (p : Pipeline) (df out : DFrame) (p2 : Pipeline) (d2 : DFrame) (c : String) (i : ℕ),
        transform p df = Except.ok (out, p2) →
        coerceStage (normFrame df) = Except.ok d2 →
        c ∈ p.numeric_cols →
        c ≠ "Age" → c ≠ "Monthly_Inhand_Salary" → c ≠ "Type_of_Loan" →
        c ≠ "Credit_Mix" → c ≠ "Payment_of_Min_Amount" →
        c ∉ p.cat_cols → mapLookup p.cat_mappings c = none →
        c ∉ p.cols_to_drop →
        (cellsOf (scrubFrame d2) "Customer_ID").get? i = some none →
        (cellsOf out c).get? i
          = (cellsOf (filterFrame p.numeric_cols (scrubFrame d2)) c).get? i) := by
  constructor
  · intro df col hcol hdt
    have h1 : getCol? (stripStage df) "Customer_ID" = some (stripF col) := by
      rw [stripStage, getCol?_mapCols _ stripF_name, hcol]
      rfl
    rw [normFrame, sentinelStage, cellsOf_mapCols_some _ sentinelF_name h1]
    rw [stripF, if_pos hdt, sentinelF]
    simp only [if_pos hdt]
    rw [List.map_map]
    apply List.map_congr_left
    intro cell _
    cases cell with
    | none => rfl
    | some v =>
      cases v <;> rfl
  · intro p df out p2 d2 c i hok hco hc hage hsal htol hcm hpm hcat hmaps hdrop1 hkey
    have hmain := cellsOf_out_numeric hok hco hc hage hsal htol hcm hpm hcat hmaps hdrop1
    rw [hmain, get?_zipWith]
    rw [show (medCellsFor (cellsOf (scrubFrame d2) "Customer_ID")
        (cellsOf (scrubFrame d2) c)).get? i = some none by
      rw [medCellsFor, get?_mapCells, hkey]
      rfl]
    cases hfv : (cellsOf (filterFrame p.numeric_cols (scrubFrame d2)) c).get? i with
    | none => rfl
    | some x =>
      cases x <;> rfl

/-- Witness for C10: both clauses applied to the concrete table `tC10`
(whose identifiers "_" and "!@9#%8" normalise to null) at row 0 of column
`Num_of_Loan`. -/
theorem C10_witness :
    cellsOf (normFrame tC10) "Customer_ID"
      = (scol "Customer_ID" [some "_", some "!@9#%8"]).cells.map (fun cell =>
          cell.bind (fun v =>
            match v with
            | Val.vs s =>
                if memB (stripUnd s) sentinels then none else some (Val.vs (stripUnd s))
            | w => some w))
    ∧ (cellsOf (outOf (transform pC10 tC10)) "Num_of_Loan").get? 0
        = (cellsOf (filterFrame pC10.numeric_cols
            (scrubFrame ((coerceStage (normFrame tC10)).toOption.getD [])))
            "Num_of_Loan").get? 0 := by
  constructor
  · exact C10_theorem.1 tC10 (scol "Customer_ID" [some "_", some "!@9#%8"])
      (by decide) (by decide)
  · exact C10_theorem.2 pC10 tC10 (outOf (transform pC10 tC10))
      ((pipeOf (transform pC10 tC10)).getD pC10)
      ((coerceStage (normFrame tC10)).toOption.getD []) "Num_of_Loan" 0
      (by decide) (by decide) (by decide) (by decide) (by decide) (by decide)
      (by decide) (by decide) (by decide) (by decide) (by decide) (by decide)

/-! ## Claim C3 — amended theorem -/

theorem bandFilter_mad_null (v m : Option Val) : bandFilter v m none = v := by
  unfold bandFilter
  cases hv : v.bind toQ <;> cases hm : m.bind toQ <;> rfl

/-- C3 (amended): after `RobustOutlierFilter`, for a declared numeric column
of any frame: (a) when the joined MAD and median are non-null, every
retained numeric value lies in `[median - 3·MAD, median + 3·MAD]`; (b) when
the joined MAD is null the cell is retained unchanged — no filtering; but
(c) when the MAD is zero the band degenerates to the single point `median`
and every value different from the group median is nulled (filtering IS
applied, contrary to the original claim). -/
theorem C3_theorem (p : Pipeline) (d4 : DFrame) (c : String)
    (hc : c ∈ p.numeric_cols) (hc4 : c ∈ names d4) :
    (∀ (i : ℕ) (w mv dv : Val) (q mq dq : ℚ),
       (cellsOf (filterFrame p.numeric_cols d4) c).get? i = some (some w) →
       (cellsOf (statFrame p.numeric_cols d4) (c ++ "_median")).get? i = some (some mv) →
       (cellsOf (statFrame p.numeric_cols d4) (c ++ "_mad")).get? i = some (some dv) →
       toQ w = some q → toQ mv = some mq → toQ dv = some dq →
       mq - 3 * dq ≤ q ∧ q ≤ mq + 3 * dq)
    ∧ (∀ (i : ℕ) (y : Option Val),
       (cellsOf (statFrame p.numeric_cols d4) (c ++ "_mad")).get? i = some none →
       (cellsOf (statFrame p.numeric_cols d4) (c ++ "_median")).get? i = some y →
       (cellsOf (filterFrame p.numeric_cols d4) c).get? i = (cellsOf d4 c).get? i)
    ∧ (∀ (i : ℕ) (w mv dv : Val) (q mq : ℚ),
       (cellsOf d4 c).get? i = some (some w) → toQ w = some q →
       (cellsOf (statFrame p.numeric_cols d4) (c ++ "_median")).get? i = some (some mv) →
       toQ mv = some mq →
       (cellsOf (statFrame p.numeric_cols d4) (c ++ "_mad")).get? i = some (some dv) →
       toQ dv = some 0 → q ≠ mq →
       (cellsOf (filterFrame p.numeric_cols d4) c).get? i = some none) := by
  have hcells := @cellsOf_filterFrame_numeric p.numeric_cols d4 c hc hc4
  refine ⟨?_, ?_, ?_⟩
  · intro i w mv dv q mq dq hw hmv hdv hq hmq hdq
    rw [hcells, get?_zipCells3, hmv, hdv] at hw
    cases horig : (cellsOf d4 c).get? i with
    | none => rw [horig] at hw; exact absurd hw (by simp)
    | some x =>
      rw [horig] at hw
      have hband : bandFilter x (some mv) (some dv) = some w := Option.some.inj hw
      unfold bandFilter at hband
      rw [show (some mv).bind toQ = toQ mv from rfl,
        show (some dv).bind toQ = toQ dv from rfl, hmq, hdq] at hband
      cases hx : x.bind toQ with
      | none =>
        rw [hx] at hband
        dsimp only at hband
        rw [hband] at hx
        rw [show (some w).bind toQ = toQ w from rfl, hq] at hx
        exact absurd hx (by simp)
      | some q0 =>
        rw [hx] at hband
        dsimp only at hband
        by_cases hcond : q0 < qsub mq (qmul 3 dq) ∨ q0 > qadd mq (qmul 3 dq)
        · rw [if_pos hcond] at hband
          exact absurd hband (by simp)
        · rw [if_neg hcond] at hband
          rw [hband] at hx
          rw [show (some w).bind toQ = toQ w from rfl, hq] at hx
          have hqq : q0 = q := (Option.some.inj hx).symm
          subst hqq
          push_neg at hcond
          rw [qsub_eq, qmul_eq, qadd_eq] at hcond
          exact ⟨hcond.1, hcond.2⟩
  · intro i y hmad hmed
    rw [hcells, get?_zipCells3, hmad, hmed]
    cases horig : (cellsOf d4 c).get? i with
    | none => rfl
    | some x => simp [bandFilter_mad_null]
  · intro i w mv dv q mq horig hq hmv hmq hdv hdv0 hne
    rw [hcells, get?_zipCells3, horig, hmv, hdv]
    have hred : bandFilter (some w) (some mv) (some dv) = none := by
      unfold bandFilter
      rw [show (some w).bind toQ = toQ w from rfl,
        show (some mv).bind toQ = toQ mv from rfl,
        show (some dv).bind toQ = toQ dv from rfl, hq, hmq, hdv0]
      dsimp only
      have hcond : q < qsub mq (qmul 3 0) ∨ q > qadd mq (qmul 3 0) := by
        rw [qsub_eq, qmul_eq, qadd_eq]
        rcases lt_or_gt_of_ne hne with h | h
        · left
          simpa using h
        · right
          simpa using h
      rw [if_pos hcond]
    show some (bandFilter (some w) (some mv) (some dv)) = some none
    rw [hred]

/-- Witness for C3: clause (a) applied to the concrete scenario `tC1` at
row 0 of `Num_of_Loan` (retained value 1, group median 5/2, MAD 1). -/
theorem C3_witness :
    (mkRat 5 2 : ℚ) - 3 * 1 ≤ 1 ∧ (1 : ℚ) ≤ (mkRat 5 2 : ℚ) + 3 * 1 :=
  (C3_theorem pC1 (scrubFrame ((coerceStage (normFrame tC1)).toOption.getD []))
    "Num_of_Loan" (by decide) (by decide)).1
    0 (Val.vf 1) (Val.vf (mkRat 5 2)) (Val.vf 1) 1 (mkRat 5 2) 1
    (by decide) (by decide) (by decide) (by decide) (by decide) (by decide)

/-! ## Drop-list congruence (for repeated `transform` calls) -/

theorem memB_congr {l1 l2 : List String} (h : ∀ n, n ∈ l1 ↔ n ∈ l2) (x : String) :
    memB x l1 = memB x l2 := by
  by_cases h1 : memB x l1 = true
  · rw [h1]
    symm
    exact memB_iff.mpr ((h x).mp (memB_iff.mp h1))
  · by_cases h2 : memB x l2 = true
    · exact absurd (memB_iff.mpr ((h x).mpr (memB_iff.mp h2))) h1
    · simp only [Bool.not_eq_true] at h1 h2
      rw [h1, h2]

theorem all_memB_congr {l1 l2 ns : List String} (h : ∀ n, n ∈ l1 ↔ n ∈ l2) :
    (l1.all (fun n => memB n ns)) = (l2.all (fun n => memB n ns)) := by
  by_cases h1 : l1.all (fun n => memB n ns) = true
  · rw [h1]
    symm
    rw [List.all_eq_true]
    intro n hn
    exact List.all_eq_true.mp h1 n ((h n).mpr hn)
  · by_cases h2 : l2.all (fun n => memB n ns) = true
    · exact absurd (List.all_eq_true.mpr
        (fun n hn => List.all_eq_true.mp h2 n ((h n).mp hn))) h1
    · simp only [Bool.not_eq_true] at h1 h2
      rw [h1, h2]

theorem dropAll_congr {l1 l2 : List String} (h : ∀ n, n ∈ l1 ↔ n ∈ l2) (df : DFrame) :
    dropAll l1 df = dropAll l2 df := by
  unfold dropAll
  apply List.filter_congr
  intro c _
  rw [memB_congr h]

theorem dropStrict_congr {l1 l2 : List String} (h : ∀ n, n ∈ l1 ↔ n ∈ l2) (df : DFrame) :
    dropStrict l1 df = dropStrict l2 df := by
  unfold dropStrict
  rw [all_memB_congr h, dropAll_congr h]

/-- Forward construction of a successful `transform`. -/
theorem transform_ok_intro {p : Pipeline} {df d2 d14 out : DFrame}
    (hs : schemaOK p df = true)
    (hco : coerceStage (normFrame df) = Except.ok d2)
    (hfill : loanFillStage (imputeFrame p.numeric_cols p.cat_cols d2) = Except.ok d14)
    (hdrop : dropStrict (p.cols_to_drop ++ genStatNames p)
      (encodeFrame p.loan_types p.cat_mappings d14) = Except.ok out) :
    transform p df
      = Except.ok (out, { p with cols_to_drop := p.cols_to_drop ++ genStatNames p }) := by
  unfold transform
  rw [if_pos hs, hco]
  dsimp only
  rw [hfill]
  dsimp only
  rw [hdrop]

/-! ## Claim C2 — amended theorem -/

/-- C2 (amended): `transform` leaves every fitted and configured field of
the pipeline object unchanged EXCEPT `cols_to_drop`, to which it appends the
generated statistic column names on every call; and despite that mutation, a
repeated invocation on the same fitted instance with the same table yields
the identical output table (the appended duplicate names drop the same
column set). -/
theorem C2_theorem :
    (∀ (p : Pipeline) (df out : DFrame) (p2 : Pipeline),
      transform p df = Except.ok (out, p2) →
      p2.numeric_cols = p.numeric_cols ∧ p2.cat_cols = p.cat_cols
      ∧ p2.loan_types = p.loan_types
      ∧ p2.cat_cols_auto_encode = p.cat_cols_auto_encode
      ∧ p2.global_medians = p.global_medians
      ∧ p2.global_modes = p.global_modes
      ∧ p2.cat_mappings = p.cat_mappings
      ∧ p2.loan_cols = p.loan_cols
      ∧ p2.cols_to_drop = p.cols_to_drop ++ genStatNames p)
    ∧ (∀ (p : Pipeline) (df out : DFrame) (p2 : Pipeline),
      transform p df = Except.ok (out, p2) →
      ∃ p3, transform p2 df = Except.ok (out, p3)) := by
  constructor
  · intro p df out p2 h
    obtain ⟨_, hp2, _⟩ := transform_ok_elim h
    subst hp2
    exact ⟨rfl, rfl, rfl, rfl, rfl, rfl, rfl, rfl, rfl⟩
  · intro p df out p2 h
    obtain ⟨hs, hp2, d2, d14, hco, hfill, hdropS⟩ := transform_ok_elim h
    subst hp2
    have hiff : ∀ n, n ∈ (p.cols_to_drop ++ genStatNames p) ++ genStatNames p
        ↔ n ∈ p.cols_to_drop ++ genStatNames p := by
      intro n
      simp only [List.mem_append]
      tauto
    refine ⟨_, transform_ok_intro
      (p := { p with cols_to_drop := p.cols_to_drop ++ genStatNames p })
      hs hco hfill ?_⟩
    show dropStrict ((p.cols_to_drop ++ genStatNames p) ++ genStatNames p)
      (encodeFrame p.loan_types p.cat_mappings d14) = Except.ok out
    rw [dropStrict_congr hiff]
    exact hdropS

/-- Witness for C2: both clauses applied to `pC6` and `tC6`. -/
theorem C2_witness :
    ((pipeOf (transform pC6 tC6)).getD pC6).cols_to_drop
        = pC6.cols_to_drop ++ genStatNames pC6
    ∧ ∃ p3, transform ((pipeOf (transform pC6 tC6)).getD pC6) tC6
        = Except.ok (outOf (transform pC6 tC6), p3) := by
  constructor
  · exact (C2_theorem.1 pC6 tC6 (outOf (transform pC6 tC6))
      ((pipeOf (transform pC6 tC6)).getD pC6) (by decide)).2.2.2.2.2.2.2.2
  · exact C2_theorem.2 pC6 tC6 (outOf (transform pC6 tC6))
      ((pipeOf (transform pC6 tC6)).getD pC6) (by decide)

/-! ## Claim C4 — amended theorem -/

/-- C4 (amended): `transform` is not idempotent, even on a clean table: its
output omits `Annual_Income` (it is in the drop list), which `transform`
itself requires, so applying `transform` to the output of a successful
`transform` fails with a missing-column error for ANY pipeline
configuration, rather than returning the same table unchanged. -/
theorem C4_theorem (p : Pipeline) (df out : DFrame) (p2 q : Pipeline)
    (hok : transform p df = Except.ok (out, p2))
    (hmem : "Annual_Income" ∈ p.cols_to_drop) :
    exOk (transform q out) = false := by
  obtain ⟨hs, hp2, d2, d14, hco, hfill, hdropS⟩ := transform_ok_elim hok
  have hout := dropStrict_ok_elim hdropS
  have hnone : getCol? out "Annual_Income" = none := by
    rw [hout]
    exact getCol?_dropAll_of_mem (List.mem_append_left _ hmem)
  have hnotin : "Annual_Income" ∉ names out := getCol?_eq_none_iff.mp hnone
  have hreq : "Annual_Income" ∈ requiredNames q := by
    unfold requiredNames
    refine List.mem_append_left _ (List.mem_append_left _ (List.mem_append_left _
      (List.mem_append_left _ ?_)))
    decide
  have hsf : ¬ (schemaOK q out = true) := fun hsq =>
    hnotin ((schemaOK_elim hsq).1 _ hreq)
  unfold transform
  rw [if_neg hsf]
  rfl

/-- Witness for C4: the clean table `tC4` — the first call succeeds, and the
second (with the mutated pipeline returned by the first) fails. -/
theorem C4_witness :
    exOk (transform
      ((pipeOf (transform (mkPipeline ["Age"] ["Occupation"] ["Auto Loan"] []) tC4)).getD
        (mkPipeline ["Age"] ["Occupation"] ["Auto Loan"] []))
      (outOf (transform (mkPipeline ["Age"] ["Occupation"] ["Auto Loan"] []) tC4))) = false :=
  C4_theorem (mkPipeline ["Age"] ["Occupation"] ["Auto Loan"] []) tC4
    (outOf (transform (mkPipeline ["Age"] ["Occupation"] ["Auto Loan"] []) tC4))
    ((pipeOf (transform (mkPipeline ["Age"] ["Occupation"] ["Auto Loan"] []) tC4)).getD
      (mkPipeline ["Age"] ["Occupation"] ["Auto Loan"] []))
    ((pipeOf (transform (mkPipeline ["Age"] ["Occupation"] ["Auto Loan"] []) tC4)).getD
      (mkPipeline ["Age"] ["Occupation"] ["Auto Loan"] []))
    (by decide) (by decide)

/-! ## Auto-encode vocabulary machinery (claim C5) -/

theorem assocLookup_cons (v a : Val) (k : ℕ) (rest : List (Val × ℕ)) :
    assocLookup v ((a, k) :: rest)
      = if a = v then some k else assocLookup v rest := by
  by_cases h : a = v
  · rw [if_pos h, assocLookup, List.find?_cons_of_pos _ (by simpa using h)]
    rfl
  · rw [if_neg h, assocLookup, List.find?_cons_of_neg _ (by simpa using h)]
    rfl

/-- The fitted index of a value under first-seen deduplication: `v` maps to
`k` plus the number of distinct unseen values occurring before the first
occurrence of `v`. -/
theorem lookup_enumFrom_uniqFSAux (l : List Val) (v : Val) (seen : List Val) (k : ℕ)
    (hv : v ∉ seen) :
    assocLookup v (enumFrom k (uniqFSAux seen l))
      = if v ∈ l then
          some (k + (uniqFSAux seen (l.takeWhile (fun w => decide (w ≠ v)))).length)
        else none := by
  induction l generalizing seen k with
  | nil => simp [uniqFSAux, enumFrom, assocLookup]
  | cons a t ih =>
    by_cases hva : v = a
    · subst hva
      rw [show uniqFSAux seen (v :: t) = v :: uniqFSAux (v :: seen) t from by
        simp [uniqFSAux, hv]]
      rw [show enumFrom k (v :: uniqFSAux (v :: seen) t)
          = (v, k) :: enumFrom (k + 1) (uniqFSAux (v :: seen) t) from rfl]
      rw [assocLookup_cons, if_pos rfl, if_pos (List.mem_cons_self v t)]
      rw [show (v :: t).takeWhile (fun w => decide (w ≠ v)) = [] from by
        simp [List.takeWhile_cons]]
      simp [uniqFSAux]
    · have hd : (fun w => decide (w ≠ v)) a = true := by
        simp only [decide_eq_true_eq]
        exact fun h => hva h.symm
      have htw : (a :: t).takeWhile (fun w => decide (w ≠ v))
          = a :: t.takeWhile (fun w => decide (w ≠ v)) :=
        List.takeWhile_cons_of_pos hd
      by_cases ha : a ∈ seen
      · rw [show uniqFSAux seen (a :: t) = uniqFSAux seen t from by
          simp [uniqFSAux, ha]]
        rw [ih seen k hv, htw]
        rw [show uniqFSAux seen (a :: t.takeWhile (fun w => decide (w ≠ v)))
            = uniqFSAux seen (t.takeWhile (fun w => decide (w ≠ v))) from by
          simp [uniqFSAux, ha]]
        by_cases hvt : v ∈ t
        · rw [if_pos hvt, if_pos (List.mem_cons_of_mem a hvt)]
        · rw [if_neg hvt, if_neg (fun hh => by
            rcases List.mem_cons.mp hh with h | h
            · exact hva h
            · exact hvt h)]
      · rw [show uniqFSAux seen (a :: t) = a :: uniqFSAux (a :: seen) t from by
          simp [uniqFSAux, ha]]
        rw [show enumFrom k (a :: uniqFSAux (a :: seen) t)
            = (a, k) :: enumFrom (k + 1) (uniqFSAux (a :: seen) t) from rfl]
        rw [assocLookup_cons, if_neg (fun h => hva h.symm)]
        rw [ih (a :: seen) (k + 1) (by
          intro hmem
          rcases List.mem_cons.mp hmem with h | h
          · exact hva h
          · exact hv h)]
        rw [htw]
        rw [show uniqFSAux seen (a :: t.takeWhile (fun w => decide (w ≠ v)))
            = a :: uniqFSAux (a :: seen) (t.takeWhile (fun w => decide (w ≠ v))) from by
          simp [uniqFSAux, ha]]
        by_cases hvt : v ∈ t
        · rw [if_pos hvt, if_pos (List.mem_cons_of_mem a hvt), List.length_cons]
          congr 1
          omega
        · rw [if_neg hvt, if_neg (fun hh => by
            rcases List.mem_cons.mp hh with h | h
            · exact hva h
            · exact hvt h)]

/-- `fitWith`'s result, dissected. -/
theorem fitWith_ok_elim {u : List Val → List Val} {p : Pipeline} {df : DFrame}
    {pf : Pipeline} (h : fitWith u p df = Except.ok pf) :
    pf = { p with
      global_medians := p.numeric_cols.map (fun c => (c, medianQ (numValsOf df c)))
      global_modes := p.cat_cols.map (fun c => (c, modesAll (nonNullsOf df c)))
      cat_mappings := (uniqFS p.cat_cols_auto_encode).map (fun c =>
        (c, enumFrom 0 (u (nonNullsOf df c)))) } := by
  unfold fitWith at h
  split at h
  · exact (Except.ok.inj h).symm
  · exact absurd h (by simp)

theorem mem_uniqFSAux {α : Type} [DecidableEq α] (l : List α) (v : α) (seen : List α) :
    v ∈ uniqFSAux seen l ↔ (v ∈ l ∧ v ∉ seen) := by
  induction l generalizing seen with
  | nil => simp [uniqFSAux]
  | cons a t ih =>
    by_cases ha : a ∈ seen
    · rw [show uniqFSAux seen (a :: t) = uniqFSAux seen t from by simp [uniqFSAux, ha]]
      rw [ih seen]
      constructor
      · exact fun h => ⟨List.mem_cons_of_mem a h.1, h.2⟩
      · intro h
        rcases List.mem_cons.mp h.1 with rfl | hm
        · exact absurd ha h.2
        · exact ⟨hm, h.2⟩
    · rw [show uniqFSAux seen (a :: t) = a :: uniqFSAux (a :: seen) t from by
        simp [uniqFSAux, ha]]
      constructor
      · intro h
        rcases List.mem_cons.mp h with rfl | hm
        · exact ⟨List.mem_cons_self _ _, ha⟩
        · have := (ih (a :: seen)).mp hm
          refine ⟨List.mem_cons_of_mem a this.1, fun hs => this.2 (List.mem_cons_of_mem a hs)⟩
      · intro h
        by_cases hva : v = a
        · exact hva ▸ List.mem_cons_self _ _
        · apply List.mem_cons_of_mem
          apply (ih (a :: seen)).mpr
          refine ⟨?_, ?_⟩
          · rcases List.mem_cons.mp h.1 with h1 | h1
            · exact absurd h1 hva
            · exact h1
          · intro hs
            rcases List.mem_cons.mp hs with h1 | h1
            · exact hva h1
            · exact h.2 h1

/-- `find?` over a list of key-value pairs keyed by the list elements. -/
theorem find?_keyMap {β : Type} (g : String → β) (l : List String) (c : String)
    (hc : c ∈ l) :
    (l.map (fun x => (x, g x))).find? (fun e => decide (e.1 = c)) = some (c, g c) := by
  induction l with
  | nil => exact absurd hc (List.not_mem_nil c)
  | cons x t ih =>
    by_cases he : x = c
    · subst he
      rw [List.map_cons, List.find?_cons_of_pos _ (by simp)]
    · rw [List.map_cons, List.find?_cons_of_neg _ (by simpa using he)]
      rcases List.mem_cons.mp hc with rfl | hct
      · exact absurd rfl he
      · exact ih hct

theorem nodup_uniqFSAux {α : Type} [DecidableEq α] (l : List α) (seen : List α) :
    (uniqFSAux seen l).Nodup := by
  induction l generalizing seen with
  | nil => simp [uniqFSAux]
  | cons a t ih =>
    by_cases ha : a ∈ seen
    · rw [show uniqFSAux seen (a :: t) = uniqFSAux seen t from by simp [uniqFSAux, ha]]
      exact ih seen
    · rw [show uniqFSAux seen (a :: t) = a :: uniqFSAux (a :: seen) t from by
        simp [uniqFSAux, ha]]
      refine List.nodup_cons.mpr ⟨?_, ih (a :: seen)⟩
      intro hmem
      exact ((mem_uniqFSAux t a (a :: seen)).mp hmem).2 (List.mem_cons_self a seen)

/-- The first-seen enumeration satisfies the `Series.unique()` contract. -/
theorem uniqFS_isUniqueOf (l : List Val) : isUniqueOf (uniqFS l) l := by
  refine ⟨nodup_uniqFSAux l [], fun v => ?_⟩
  rw [show uniqFS l = uniqFSAux [] l from rfl, mem_uniqFSAux]
  simp

/-- So does the reversed first-seen enumeration: polars' contract does not
single out an order. -/
theorem rev_uniqFS_isUniqueOf (l : List Val) : isUniqueOf ((uniqFS l).reverse) l := by
  obtain ⟨hnd, hmem⟩ := uniqFS_isUniqueOf l
  exact ⟨List.nodup_reverse.mpr hnd, fun v => (List.mem_reverse).trans (hmem v)⟩

/-- Looking a value up in `enumerate`d duplicate-free list: the result is
exactly the value's position. -/
theorem assocLookup_enumFrom_get? (l : List Val) (hnd : l.Nodup) (v : Val) (k j : ℕ) :
    assocLookup v (enumFrom k l) = some j
      ↔ ∃ n, j = k + n ∧ l.get? n = some v := by
  induction l generalizing k with
  | nil => simp [enumFrom, assocLookup]
  | cons a t ih =>
    rw [show enumFrom k (a :: t) = (a, k) :: enumFrom (k + 1) t from rfl,
      assocLookup_cons]
    obtain ⟨hat, hndt⟩ := List.nodup_cons.mp hnd
    by_cases hav : a = v
    · subst hav
      rw [if_pos rfl]
      constructor
      · intro h
        have hkj := Option.some.inj h
        exact ⟨0, by omega, rfl⟩
      · rintro ⟨n, hj, hg⟩
        cases n with
        | zero => rw [show j = k from by omega]
        | succ m =>
          have hm : t.get? m = some a := hg
          exact absurd (List.get?_mem hm) hat
    · rw [if_neg hav, ih hndt (k + 1)]
      constructor
      · rintro ⟨n, hj, hg⟩
        exact ⟨n + 1, by omega, hg⟩
      · rintro ⟨n, hj, hg⟩
        cases n with
        | zero => exact absurd (Option.some.inj hg) hav
        | succ m => exact ⟨m, by omega, hg⟩

/-! ## Claim C5 -/

/-- C5 counterexample to the first-seen clause: pipe.py line 74 calls
`Series.unique()` with its default `maintain_order=False`, which promises
only a duplicate-free enumeration of the values in an unspecified order
(`isUniqueOf`).  The reversed first-seen enumeration satisfies that
contract, yet fitting `tC5fit` with it assigns index 1 to `Doctor` — the
value occurring first in the training column (position 0 of the non-null
cells) — where the first-seen enumeration assigns it 0.  Both runs are
admissible resolutions of the code, so the code does not establish
first-seen index assignment. -/
theorem C5_counterexample :
    (∀ l : List Val, isUniqueOf ((uniqFS l).reverse) l)
    ∧ ((fitWith (fun l => (uniqFS l).reverse) pC5 tC5fit).toOption.map
          (fun pf => mapLookup pf.cat_mappings "Occupation")
        = some (some [(Val.vs "Lawyer", 0), (Val.vs "Doctor", 1)]))
    ∧ ((fitWith uniqFS pC5 tC5fit).toOption.map
          (fun pf => mapLookup pf.cat_mappings "Occupation")
        = some (some [(Val.vs "Doctor", 0), (Val.vs "Lawyer", 1)]))
    ∧ (nonNullsOf tC5fit "Occupation").get? 0 = some (Val.vs "Doctor") :=
  ⟨rev_uniqFS_isUniqueOf, by decide, by decide, by decide⟩

/-- C5 (amended): (1) for every enumeration `u` satisfying the
`Series.unique()` contract, `fitWith u` builds, for every auto-encode
column, a value→integer mapping in which a value maps to `n` exactly when
it occupies position `n` of the enumeration of the column's distinct
non-null training values — a bijection between the observed distinct
values and their enumeration positions, the order itself being unspecified
by polars — and a value is mapped at all iff it was observed at fit time;
(2) `transform` never changes the fitted vocabularies; (3) `transform`
applies exactly the fitted mapping to an auto-encode column: the output
cells are the pre-encoding cells mapped through the vocabulary, so a value
unseen at fit time becomes null rather than raising an error or extending
the vocabulary; (4) concretely, under both sample enumerations (first-seen
and reversed first-seen) fitting on Doctor/Lawyer and transforming a table
with the unseen `Teacher` succeeds, encodes `Doctor` to its position in the
respective enumeration, and nulls the unseen value. -/
theorem C5_theorem :
    (∀ (u : List Val → List Val), (∀ l, isUniqueOf (u l) l) →
      ∀ (p : Pipeline) (df : DFrame) (pf : Pipeline),
      fitWith u p df = Except.ok pf →
      ∀ c ∈ p.cat_cols_auto_encode,
      ∃ m, mapLookup pf.cat_mappings c = some m
        ∧ (∀ (v : Val) (n : ℕ),
            assocLookup v m = some n ↔ (u (nonNullsOf df c)).get? n = some v)
        ∧ (∀ v : Val, (∃ n, assocLookup v m = some n) ↔ v ∈ nonNullsOf df c))
    ∧ (∀ (p : Pipeline) (df out : DFrame) (p2 : Pipeline),
        transform p df = Except.ok (out, p2) → p2.cat_mappings = p.cat_mappings)
    ∧ (∀ (p : Pipeline) (df out : DFrame) (p2 : Pipeline) (d2 d14 : DFrame)
        (c : String) (m : List (Val × ℕ)),
        transform p df = Except.ok (out, p2) →
        coerceStage (normFrame df) = Except.ok d2 →
        loanFillStage (imputeFrame p.numeric_cols p.cat_cols d2) = Except.ok d14 →
        mapLookup p.cat_mappings c = some m →
        c ∉ p.cols_to_drop →
        cellsOf out c
          = (cellsOf (fixedMapStage (loanHotStage p.loan_types d14)) c).map
              (fun cell => cell.bind (fun v =>
                (assocLookup v m).map (fun i => Val.vi (i : ℤ)))))
    ∧ ((fit pC5 tC5fit).toOption.map (fun pf =>
            (transform pf tC5).toOption.map (fun r => cellsOf r.1 "Occupation"))
          = some (some [some (Val.vi 0), none])
        ∧ (fitWith (fun l => (uniqFS l).reverse) pC5 tC5fit).toOption.map (fun pf =>
            (transform pf tC5).toOption.map (fun r => cellsOf r.1 "Occupation"))
          = some (some [some (Val.vi 1), none])) := by
  refine ⟨?_, ?_, ?_, by decide, by decide⟩
  · intro u hu p df pf hfit c hc
    have hpf := fitWith_ok_elim hfit
    subst hpf
    refine ⟨enumFrom 0 (u (nonNullsOf df c)), ?_, ?_, ?_⟩
    · show (((uniqFS p.cat_cols_auto_encode).map (fun x =>
          (x, enumFrom 0 (u (nonNullsOf df x))))).find?
          (fun e => decide (e.1 = c))).map (fun e => e.2)
        = some (enumFrom 0 (u (nonNullsOf df c)))
      rw [find?_keyMap (fun x => enumFrom 0 (u (nonNullsOf df x)))
        (uniqFS p.cat_cols_auto_encode) c
        ((mem_uniqFSAux p.cat_cols_auto_encode c []).mpr ⟨hc, by simp⟩)]
      rfl
    · intro v n
      rw [assocLookup_enumFrom_get? (u (nonNullsOf df c))
        (hu (nonNullsOf df c)).1 v 0 n]
      constructor
      · rintro ⟨n2, hn2, hg⟩
        rwa [show n = n2 from by omega]
      · intro hg
        exact ⟨n, by omega, hg⟩
    · intro v
      constructor
      · rintro ⟨n, hn⟩
        obtain ⟨n2, _, hg⟩ := (assocLookup_enumFrom_get? (u (nonNullsOf df c))
          (hu (nonNullsOf df c)).1 v 0 n).mp hn
        exact ((hu (nonNullsOf df c)).2 v).mp (List.get?_mem hg)
      · intro hv
        have hvu : v ∈ u (nonNullsOf df c) := ((hu (nonNullsOf df c)).2 v).mpr hv
        obtain ⟨n, hg⟩ := List.mem_iff_get?.mp hvu
        exact ⟨n, (assocLookup_enumFrom_get? (u (nonNullsOf df c))
          (hu (nonNullsOf df c)).1 v 0 n).mpr ⟨n, by omega, hg⟩⟩
  · intro p df out p2 h
    obtain ⟨_, hp2, _⟩ := transform_ok_elim h
    subst hp2
    rfl
  · intro p df out p2 d2 d14 c m hok hco hfill hm hdrop1
    obtain ⟨hs, hp2, d2x, d14x, hcox, hfillx, hdropS⟩ := transform_ok_elim hok
    rw [hco] at hcox
    have hd2 : d2 = d2x := Except.ok.inj hcox
    subst hd2
    rw [hfill] at hfillx
    have hd14 : d14 = d14x := Except.ok.inj hfillx
    subst hd14
    obtain ⟨hreq, hnd⟩ := schemaOK_elim hs
    have hckey : c ∈ p.cat_mappings.map (·.1) := by
      have hfind : (p.cat_mappings.find? (fun e => decide (e.1 = c))).isSome = true := by
        unfold mapLookup at hm
        cases hf : p.cat_mappings.find? (fun e => decide (e.1 = c)) with
        | none => rw [hf] at hm; exact absurd hm (by simp)
        | some e => simp
      obtain ⟨e, he⟩ := Option.isSome_iff_exists.mp hfind
      have hmem := List.mem_of_find?_eq_some he
      have hkey : e.1 = c := by simpa using List.find?_some he
      exact hkey ▸ List.mem_map_of_mem _ hmem
    have hcreq : c ∈ requiredNames p := by
      unfold requiredNames
      exact List.mem_append_right _ hckey
    have hcdf : c ∈ names df := hreq c hcreq
    have hcnotdrop : c ∉ p.cols_to_drop ++ genStatNames p := by
      intro hmm
      rcases List.mem_append.mp hmm with h1 | h2
      · exact hdrop1 h1
      · exact guard_not_in_names hnd (genStatNames_subset_guard h2) hcdf
    have hnames2 : names d2 = names df := by
      rw [coerce_ok_elim hco, names_mapCols _ coerceF_name, names_normFrame]
    obtain ⟨hd14eq, tc, htc, htcd⟩ := loanFill_ok_elim hfill
    have hcd14 : c ∈ names d14 := by
      rw [hd14eq, names_mapCols _ loanFillF_name, names_imputeFrame]
      exact List.mem_append_left _ (List.mem_append_left _ (List.mem_append_left _
        (List.mem_append_left _ (List.mem_append_left _ (hnames2 ▸ hcdf)))))
    have hcpre : c ∈ names (fixedMapStage (loanHotStage p.loan_types d14)) := by
      rw [fixedMapStage, names_mapCols _ fixedMapF_name, names_loanHot]
      exact List.mem_append_left _ hcd14
    obtain ⟨col, hcol⟩ := Option.isSome_iff_exists.mp (getCol?_isSome_iff.mpr hcpre)
    have hname := getCol?_name hcol
    rw [dropStrict_ok_elim hdropS, cellsOf_dropAll_other hcnotdrop, encodeFrame,
      autoEncStage, cellsOf_mapCols_some _ (autoEncF_name p.cat_mappings) hcol]
    simp only [autoEncF, hname, hm]
    rw [cellsOf_eq_of_getCol? hcol]

/-- Witness for C5: the vocabulary-preservation clause applied to the
fitted pipeline `fit pC5 tC5fit` and the table `tC5`. -/
theorem C5_witness :
    ((pipeOf (transform ((fit pC5 tC5fit).toOption.getD pC5) tC5)).getD pC5).cat_mappings
      = ((fit pC5 tC5fit).toOption.getD pC5).cat_mappings :=
  C5_theorem.2.1 ((fit pC5 tC5fit).toOption.getD pC5) tC5
    (outOf (transform ((fit pC5 tC5fit).toOption.getD pC5) tC5))
    ((pipeOf (transform ((fit pC5 tC5fit).toOption.getD pC5) tC5)).getD pC5)
    (by decide)

/-! ## Claim C8 -/

theorem genStatNames_in_pre {p : Pipeline} {n : String} (h : n ∈ genStatNames p) :
    n ∈ (p.numeric_cols.map (· ++ "_median") ++ p.numeric_cols.map (· ++ "_mad")
      ++ p.numeric_cols.map (· ++ "_abs_dev") ++ p.cat_cols.map (· ++ "_mode")
      ++ ["median_age_per_occ"]) := by
  unfold genStatNames at h
  rcases List.mem_append.mp h with hl | hr
  · rcases List.mem_flatten.mp hl with ⟨l, hlmem, hnl⟩
    rcases List.mem_map.mp hlmem with ⟨x, hx, rfl⟩
    simp only [List.mem_cons, List.not_mem_nil, or_false] at hnl
    rcases hnl with rfl | rfl | rfl
    · exact List.mem_append_left _ (List.mem_append_left _ (List.mem_append_left _
        (List.mem_append_left _ (List.mem_map_of_mem _ hx))))
    · exact List.mem_append_left _ (List.mem_append_left _ (List.mem_append_left _
        (List.mem_append_right _ (List.mem_map_of_mem _ hx))))
    · exact List.mem_append_left _ (List.mem_append_left _
        (List.mem_append_right _ (List.mem_map_of_mem _ hx)))
  · exact List.mem_append_left _ (List.mem_append_right _ hr)

theorem loanColName_ne_cm (lt : String) : loanColName lt ≠ "Credit_Mix" := by
  intro h
  have hd := congrArg String.data h
  rw [loanColName, String.data_append,
    (by decide : ("Loan_" : String).data = ['L', 'o', 'a', 'n', '_']),
    (by decide : ("Credit_Mix" : String).data
      = ['C', 'r', 'e', 'd', 'i', 't', '_', 'M', 'i', 'x'])] at hd
  simp only [List.cons_append] at hd
  injection hd with h1 _
  exact absurd h1 (by decide)

theorem loanColName_ne_pm (lt : String) : loanColName lt ≠ "Payment_of_Min_Amount" := by
  intro h
  have hd := congrArg String.data h
  rw [loanColName, String.data_append,
    (by decide : ("Loan_" : String).data = ['L', 'o', 'a', 'n', '_']),
    (by decide : ("Payment_of_Min_Amount" : String).data
      = ['P', 'a', 'y', 'm', 'e', 'n', 't', '_', 'o', 'f', '_', 'M', 'i', 'n', '_',
         'A', 'm', 'o', 'u', 'n', 't'])] at hd
  simp only [List.cons_append] at hd
  injection hd with h1 _
  exact absurd h1 (by decide)

/-- C8: (1) concretely, with the three configured loan types, the compound
value `"Auto Loan, and Credit-Builder Loan"` yields multi-hot columns
`Loan_Auto_Loan = 1`, `Loan_CreditBuilder_Loan = 1`, `Loan_Personal_Loan = 0`;
(2) universally, for every input table on which `transform` succeeds, every
cell of a generated loan column is a non-null 0 or 1 (`Type_of_Loan` is
null-filled with `""` before the multi-hot encoding, so no null can
propagate). -/
theorem C8_theorem :
    ((transform pC8 tC8).toOption.map (fun r =>
        (cellsOf r.1 "Loan_Auto_Loan", cellsOf r.1 "Loan_CreditBuilder_Loan",
         cellsOf r.1 "Loan_Personal_Loan"))
      = some ([some (Val.vi 1)], [some (Val.vi 1)], [some (Val.vi 0)]))
    ∧ (∀ (p : Pipeline) (df out : DFrame) (p2 : Pipeline) (lt : String),
        transform p df = Except.ok (out, p2) →
        lt ∈ p.loan_types →
        loanColName lt ∉ p.cols_to_drop →
        mapLookup p.cat_mappings (loanColName lt) = none →
        ∀ cell ∈ cellsOf out (loanColName lt),
          cell = some (Val.vi 0) ∨ cell = some (Val.vi 1)) := by
  refine ⟨by decide, ?_⟩
  intro p df out p2 lt hok hlt hdropl hmap cell hcell
  obtain ⟨hs, hp2, d2, d14, hco, hfill, hdropS⟩ := transform_ok_elim hok
  obtain ⟨hreq, hnd⟩ := schemaOK_elim hs
  have hloanmap : loanColName lt ∈ p.loan_types.map loanColName :=
    List.mem_map_of_mem _ hlt
  have hg : loanColName lt ∈ guardNames p := by
    unfold guardNames
    exact List.mem_append_right _ hloanmap
  have hndf : loanColName lt ∉ names df := guard_not_in_names hnd hg
  have hgd : nodupB ((p.numeric_cols.map (· ++ "_median")
      ++ p.numeric_cols.map (· ++ "_mad") ++ p.numeric_cols.map (· ++ "_abs_dev")
      ++ p.cat_cols.map (· ++ "_mode") ++ ["median_age_per_occ"])
      ++ p.loan_types.map loanColName) = true :=
    nodupB_sub_right hnd
  have hdisj := nodupB_disjoint hgd
  have hnotstat : loanColName lt ∉ genStatNames p := by
    intro hmem
    exact hdisj (loanColName lt) (genStatNames_in_pre hmem) hloanmap
  have hnotdrop : loanColName lt ∉ p.cols_to_drop ++ genStatNames p := by
    intro hmem
    rcases List.mem_append.mp hmem with h1 | h2
    · exact hdropl h1
    · exact hnotstat h2
  have hnames2 : names d2 = names df := by
    rw [coerce_ok_elim hco, names_mapCols _ coerceF_name, names_normFrame]
  obtain ⟨hd14eq, tc, htc, htcd⟩ := loanFill_ok_elim hfill
  have hnd14 : loanColName lt ∉ names d14 := by
    rw [hd14eq, names_mapCols _ loanFillF_name, names_imputeFrame]
    intro hmem
    rcases List.mem_append.mp hmem with hX | hocc
    · rcases List.mem_append.mp hX with hY | hmode
      · rcases List.mem_append.mp hY with hZ | hmad
        · rcases List.mem_append.mp hZ with hW | habs
          · rcases List.mem_append.mp hW with hdf2 | hmed
            · exact hndf (hnames2 ▸ hdf2)
            · exact hdisj _ (List.mem_append_left _ (List.mem_append_left _
                (List.mem_append_left _ (List.mem_append_left _ hmed)))) hloanmap
          · exact hdisj _ (List.mem_append_left _ (List.mem_append_left _
              (List.mem_append_right _ habs))) hloanmap
        · exact hdisj _ (List.mem_append_left _ (List.mem_append_left _
            (List.mem_append_left _ (List.mem_append_right _ hmad)))) hloanmap
      · exact hdisj _ (List.mem_append_left _ (List.mem_append_right _ hmode)) hloanmap
    · exact hdisj _ (List.mem_append_right _ hocc) hloanmap
  rw [dropStrict_ok_elim hdropS, cellsOf_dropAll_other hnotdrop, encodeFrame,
    cellsOf_autoEnc_other hmap,
    cellsOf_fixedMap_other (loanColName_ne_cm lt) (loanColName_ne_pm lt),
    loanHotStage, cellsOf_append_right hnd14] at hcell
  cases hgc : getCol? (p.loan_types.map (fun lt =>
      (⟨loanColName lt, Dtype.di8,
        (cellsOf d14 "Type_of_Loan").map (fun cell => cell.map (fun v =>
          Val.vi (if wordContains (strValOf v).toList lt.toList then 1 else 0)))⟩ : Col)))
      (loanColName lt) with
  | none =>
    rw [cellsOf, hgc] at hcell
    exact absurd hcell (by simp)
  | some col =>
    have hmemcol : col ∈ p.loan_types.map (fun lt =>
        (⟨loanColName lt, Dtype.di8,
          (cellsOf d14 "Type_of_Loan").map (fun cell => cell.map (fun v =>
            Val.vi (if wordContains (strValOf v).toList lt.toList then 1 else 0)))⟩ : Col)) :=
      List.mem_of_find?_eq_some hgc
    rcases List.mem_map.mp hmemcol with ⟨ltx, hltx, rfl⟩
    rw [cellsOf_eq_of_getCol? hgc] at hcell
    have hTL : cellsOf d14 "Type_of_Loan"
        = tc.cells.map (fun cell => some (cell.getD (Val.vs ""))) := by
      rw [hd14eq, cellsOf_mapCols_some _ loanFillF_name htc, loanFillF,
        getCol?_name htc, if_pos rfl]
    rw [hTL] at hcell
    rcases List.mem_map.mp hcell with ⟨c0, hc0, rfl⟩
    rcases List.mem_map.mp hc0 with ⟨c1, hc1, rfl⟩
    cases hb : wordContains (strValOf (c1.getD (Val.vs ""))).toList ltx.toList
    · refine Or.inl ?_
      show some (Val.vi (if wordContains
          (strValOf (c1.getD (Val.vs ""))).toList ltx.toList then 1 else 0))
        = some (Val.vi 0)
      rw [hb]
      decide
    · refine Or.inr ?_
      show some (Val.vi (if wordContains
          (strValOf (c1.getD (Val.vs ""))).toList ltx.toList then 1 else 0))
        = some (Val.vi 1)
      rw [hb]
      decide

/-- Witness for C8: the universal 0/1 clause applied to the concrete
pipeline `pC8`, table `tC8`, loan type `"Auto Loan"` and the single cell of
the generated column. -/
theorem C8_witness :
    (some (Val.vi 1) : Option Val) = some (Val.vi 0)
      ∨ (some (Val.vi 1) : Option Val) = some (Val.vi 1) :=
  C8_theorem.2 pC8 tC8 (outOf (transform pC8 tC8))
    ((pipeOf (transform pC8 tC8)).getD pC8) "Auto Loan"
    (by decide) (by decide) (by decide) (by decide)
    (some (Val.vi 1)) (by decide)

end Credit
